import Mathlib

/-!
Verification development for the bulk CSV import / reconciliation subsystem of
the spk2_db repository (Go).  The repository ships two revisions of
`importer/data_importer.go`; the shallow embedding below covers the functions
the claims cite from both revisions:

* string normalisation helpers, `levenshteinDistance` (the row-by-row dynamic
  programme, lines 2274-2312), `getColumnIndex` (lines 2452-2478, the variant
  with the underscore normalisation), `findBestColumnMatch` and
  `validateHeaders` (lines 1373-1470);
* the reference resolvers `GetStateID` (lines 1076-1153), the course
  validation `ValidateCourseCode`/`storeHistoricalCode` (lines 1224-1258),
  `GetInstitutionID` (lines 1322-1340);
* the row transforms `transformState`, `transformCourse`, `transformGender`,
  `transformInt`, `transformString`, `transformInstitution`,
  `transformAdmission` and the pipeline `DefaultColumnMappings` /
  `transformRecord` (lines 1926-2391);
* the read-only analyzer chunking of `AnalyzeFailedImports` / `processChunk`
  (lines 1682-1817);
* the upsert conflict policies of the two `prepareInsertStatement` revisions
  (COALESCE-based, lines 722-759, versus the plain `buildUpdateClause`
  overwrite, lines 2342-2365 and 2442-2450) over a table abstraction, and
* the batch/commit/cancellation loop of the first revision's `ImportData`
  (lines 556-720) as a deterministic state machine with a cancellation clock.

Go byte-level string operations are modelled on ASCII character lists (all
inputs involved are ASCII); `float64` confidence arithmetic is modelled
exactly, with comparisons carried out by cross multiplication on the exact
pair (edit distance, maximum length); division by zero, which in Go produces
NaN and hence failing comparisons, is modelled so that the comparisons fail.
Database rows are passed explicitly in a `Db` record; query/connection
failures are outside the model.
-/

/-! ### ASCII string helpers (models of `strings.ToLower`, `strings.ToUpper`,
`strings.TrimSpace`, `strings.ReplaceAll`, `strings.Fields`) -/

def lowerCh (c : Char) : Char :=
  if 'A' ≤ c ∧ c ≤ 'Z' then Char.ofNat (c.toNat + 32) else c

def upperCh (c : Char) : Char :=
  if 'a' ≤ c ∧ c ≤ 'z' then Char.ofNat (c.toNat - 32) else c

def isSpaceCh (c : Char) : Bool :=
  c = ' ' ∨ c = '\t' ∨ c = '\n' ∨ c = '\r'

def lowerStr (s : String) : String := String.mk (s.data.map lowerCh)

def upperStr (s : String) : String := String.mk (s.data.map upperCh)

def trimStr (s : String) : String :=
  String.mk (((s.data.dropWhile isSpaceCh).reverse.dropWhile isSpaceCh).reverse)

def removeAllStr (c : Char) (s : String) : String :=
  String.mk (s.data.filter (fun x => x ≠ c))

/-- Model of `strings.ReplaceAll(s, "-", " ")`. -/
def replaceDashSpace (s : String) : String :=
  String.mk (s.data.map (fun c => if c = '-' then ' ' else c))

def splitWSAux : List Char → List Char → List (List Char)
  | [], acc => if acc.isEmpty then [] else [acc.reverse]
  | c :: rest, acc =>
      if isSpaceCh c then
        if acc.isEmpty then splitWSAux rest []
        else acc.reverse :: splitWSAux rest []
      else splitWSAux rest (c :: acc)

/-- Model of `strings.Fields`: maximal runs of non-whitespace characters. -/
def fieldsStr (s : String) : List String :=
  (splitWSAux s.data []).map String.mk

/-! ### `levenshteinDistance` (data_importer.go lines 2274-2312)

The Go function fills a `(len(s1)+1) × (len(s2)+1)` matrix row by row; we
compute the same rows, carrying the previous row, the cell to the left and
the diagonal cell through the column loop. -/

def min3 (a b c : Nat) : Nat := min (min a b) c

def levNextRowAux (c1 : Char) : List (Char × Nat) → Nat → Nat → List Nat
  | [], _, _ => []
  | (c2, up) :: rest, left, diag =>
      let cur := if c1 = c2 then diag else min3 (up + 1) (left + 1) (diag + 1)
      cur :: levNextRowAux c1 rest cur up

def levRows (s2 : List Char) : List Char → Nat → List Nat → List Nat
  | [], _, prev => prev
  | c1 :: rest, i, prev =>
      let row := (i + 1) :: levNextRowAux c1 (s2.zip prev.tail) (i + 1) (prev.headD 0)
      levRows s2 rest (i + 1) row

def levenshteinDistance (s1 s2 : String) : Nat :=
  if s1.length = 0 then s2.length
  else if s2.length = 0 then s1.length
  else (levRows s2.data s1.data 0 (List.range (s2.length + 1))).getLastD 0

/-! ### `getColumnIndex` (lines 2452-2478)

Returns the first header index whose normalisation matches the column name;
`none` models the Go sentinel `-1`. -/

def getColumnIndexGo (columnName : String) : List String → Nat → Option Nat
  | [], _ => none
  | header :: rest, i =>
      let normalizedHeader := lowerStr (trimStr header)
      let normalizedColumn := lowerStr (trimStr columnName)
      if normalizedHeader = normalizedColumn then some i
      else if removeAllStr ' ' normalizedHeader = removeAllStr ' ' normalizedColumn then some i
      else if removeAllStr '_' normalizedHeader = removeAllStr '_' normalizedColumn then some i
      else getColumnIndexGo columnName rest (i + 1)

def getColumnIndex (headers : List String) (columnName : String) : Option Nat :=
  getColumnIndexGo columnName headers 0

/-! ### `findBestColumnMatch` (lines 1373-1407)

The Go code computes `confidence = 1 - distance/maxLen` in `float64` and
keeps candidates with `confidence > 0.6`.  We keep the exact pair
`(distance, maxLen)` in each candidate and compare by cross multiplication;
`maxLen = 0` makes the Go comparison a NaN comparison, which is false, and
`confGtFrac` is false there as well.  `ColumnMatch.confidence` recovers the
exact rational value for specification statements. -/

def normalizeCol (s : String) : String :=
  removeAllStr ' ' (removeAllStr '_' (lowerStr (trimStr s)))

structure ColumnMatch where
  sourceColumn : String
  destinationColumn : String
  dist : Nat
  maxLen : Nat
deriving DecidableEq

def ColumnMatch.confidence (m : ColumnMatch) : Rat :=
  if m.maxLen = 0 then 0 else 1 - (m.dist : Rat) / (m.maxLen : Rat)

/-- Decides `1 - d/m > num/den` for the exact confidence value (false when
`m = 0`, mirroring the failing NaN comparison). -/
def confGtFrac (d m num den : Nat) : Bool :=
  if m = 0 then false else decide (num * m < den * (m - d))

/-- Decides `confidence₁ > confidence₂`, i.e. `d₁/m₁ < d₂/m₂`. -/
def confGtConf (d1 m1 d2 m2 : Nat) : Bool :=
  decide (d1 * m2 < d2 * m1)

def insertByConf (m : ColumnMatch) : List ColumnMatch → List ColumnMatch
  | [] => [m]
  | x :: xs =>
      if confGtConf m.dist m.maxLen x.dist x.maxLen then m :: x :: xs
      else x :: insertByConf m xs

def sortByConf : List ColumnMatch → List ColumnMatch
  | [] => []
  | x :: xs => insertByConf x (sortByConf xs)

def fuzzyDist (a b : String) : Nat :=
  levenshteinDistance (normalizeCol a) (normalizeCol b)

def fuzzyMaxLen (a b : String) : Nat :=
  max (normalizeCol a).length (normalizeCol b).length

/-- The exact value of the `float64` confidence the Go loop computes for a
pair of raw column names. -/
def fuzzyConfidence (a b : String) : Rat :=
  if fuzzyMaxLen a b = 0 then 0
  else 1 - (fuzzyDist a b : Rat) / (fuzzyMaxLen a b : Rat)

def findBestColumnMatch (sourceColumn : String) (requiredColumns : List String) :
    List ColumnMatch :=
  let base := requiredColumns.filterMap (fun destColumn =>
    let d := fuzzyDist sourceColumn destColumn
    let m := fuzzyMaxLen sourceColumn destColumn
    if confGtFrac d m 3 5 then some ⟨sourceColumn, destColumn, d, m⟩ else none)
  sortByConf base

/-! ### `validateHeaders` (lines 1409-1470)

The interactive confirmations (`fmt.Scanln`) are injected as a policy: the
numeric choice for multiple candidates and the y/n answer for a single
below-threshold candidate. -/

structure ConfirmPolicy where
  chooseMulti : String → List ColumnMatch → Nat
  acceptSingle : String → ColumnMatch → Bool

def resolveField (p : ConfirmPolicy) (headers : List String) (required : String) :
    Option String :=
  if (getColumnIndex headers required).isSome then some required
  else
    let foundMatches := findBestColumnMatch required headers
    if 0 < foundMatches.length then
      if 1 < foundMatches.length then
        let choice := p.chooseMulti required foundMatches
        if 0 < choice ∧ choice ≤ foundMatches.length then
          some ((foundMatches.getD (choice - 1) ⟨"", "", 0, 0⟩).sourceColumn)
        else none
      else
        let m := foundMatches.headD ⟨"", "", 0, 0⟩
        if confGtFrac m.dist m.maxLen 4 5 then some m.sourceColumn
        else if p.acceptSingle required m then some m.sourceColumn
        else none
    else none

def validateHeadersGo (p : ConfirmPolicy) (headers : List String) :
    List String → List (String × String) → List String →
    Except (List String) (List (String × String))
  | [], mapping, missing =>
      if missing.isEmpty then Except.ok mapping else Except.error missing
  | required :: rest, mapping, missing =>
      match resolveField p headers required with
      | some h => validateHeadersGo p headers rest (mapping ++ [(required, h)]) missing
      | none => validateHeadersGo p headers rest mapping (missing ++ [required])

/-- `validateHeaders`: returns the column mapping, or the list of all
required columns that stayed unmapped. -/
def validateHeaders (p : ConfirmPolicy) (requiredColumns headers : List String) :
    Except (List String) (List (String × String)) :=
  validateHeadersGo p headers requiredColumns [] []

/-- A non-interactive policy that declines every confirmation request. -/
def alwaysReject : ConfirmPolicy := ⟨fun _ _ => 0, fun _ _ => false⟩

/-! ### Values and the database abstraction

Go's `interface{}` transform results carry `nil`, strings, ints and bools;
`Val` embeds exactly those.  `Db` carries the reference tables the resolvers
read (and, for courses and the historical audit, write):
`state (st_id, st_name)` in query order, `courses (corcode, name)`,
`historical_course_codes (year, old_course_code, institution_id)` and
`institutions (inid, inabv, inname)`. -/

inductive Val where
  | VNull : Val
  | VStr : String → Val
  | VInt : Int → Val
  | VBool : Bool → Val
deriving DecidableEq

open Val

structure HistoricalCourseError where
  courseCode : String
  year : Int
  institutionID : Int
deriving DecidableEq

structure Db where
  states : List (Int × String)
  courses : List (String × String)
  audit : List HistoricalCourseError
  insts : List (String × String × String)

/-! ### `GetStateID` (lines 1076-1153) -/

/-- The `specialCases` literal map of `GetStateID`. -/
def specialCasesState (s : String) : String :=
  if s = "FCT ABUJA" then "FCT"
  else if s = "FEDERAL CAPITAL TERRITORY" then "FCT"
  else if s = "ABUJA" then "FCT"
  else if s = "AKWA-IBOM" then "AKWA IBOM"
  else if s = "CROSS-RIVER" then "CROSS RIVER"
  else if s = "NASARAWA" then "NASSARAWA"
  else if s = "AFRICA" then "FOREIGNER"
  else if s = "WEST AFRICA" then "FOREIGNER"
  else if s = "REPUBLIC OF BENIN" then "COTONOU"
  else if s = "COTE D\x27IVORIE" then "COTE D VOIRE"
  else if s = "COTE D\x27IVOIRE" then "COTE D VOIRE"
  else s

/-- Fuzzy scan of `GetStateID`: closest state by edit distance, first row
winning ties, starting from the sentinel distance 1000. -/
def closestState (states : List (Int × String)) (clean : String) : Nat × Int :=
  states.foldl
    (fun acc p =>
      let d := levenshteinDistance clean p.2
      if d < acc.1 then (d, p.1) else acc)
    (1000, 0)

/-- `GetStateID`: uppercase/trim, rewrite special cases, exact lookup, then
fuzzy fallback accepted at distance ≤ 2; `none` models the
`state not found` error return. -/
def getStateID (states : List (Int × String)) (stateName : String) : Option Int :=
  let cleanName := specialCasesState (upperStr (trimStr stateName))
  match states.find? (fun p => p.2 = cleanName) with
  | some p => some p.1
  | none =>
      let best := closestState states cleanName
      if best.1 ≤ 2 then some best.2 else none

/-! ### Row transforms (lines 1926-2167) -/

/-- The `foreignStates` literal map of `transformState`. -/
def foreignStates (s : String) : String :=
  if s = "COTE D VOIRE" then "COTE D\x27IVOIRE"
  else if s = "COTE D\x27VOIRE" then "COTE D\x27IVOIRE"
  else if s = "COTE DE VOIRE" then "COTE D\x27IVOIRE"
  else if s = "COTE DIVOIRE" then "COTE D\x27IVOIRE"
  else if s = "IVORY COAST" then "COTE D\x27IVOIRE"
  else if s = "CAMEROUN" then "CAMEROON"
  else if s = "CAMEROONS" then "CAMEROON"
  else if s = "LONDON" then "UNITED KINGDOM"
  else if s = "UK" then "UNITED KINGDOM"
  else if s = "BRITAIN" then "UNITED KINGDOM"
  else if s = "ENGLAND" then "UNITED KINGDOM"
  else if s = "JEDDAH" then "SAUDI ARABIA"
  else if s = "SA" then "SAUDI ARABIA"
  else if s = "RSA" then "SOUTH AFRICA"
  else if s = "GHANA" then "GHANA"
  else if s = "COTONOU" then "BENIN REPUBLIC"
  else if s = "BENIN" then "BENIN REPUBLIC"
  else s

/-- `transformState`: empty input gives null; otherwise clean, rewrite
foreign names, resolve; on a miss retry every whitespace-separated word; if
everything misses, fall back to the sentinel state id 99 with no error. -/
def transformState (db : Db) (s : String) : Except String Val :=
  if s = "" then Except.ok VNull
  else
    let s1 := foreignStates (replaceDashSpace (trimStr (upperStr s)))
    match getStateID db.states s1 with
    | some id => Except.ok (VInt id)
    | none =>
        let words := fieldsStr (replaceDashSpace s1)
        match words.findSome? (fun w => getStateID db.states w) with
        | some id => Except.ok (VInt id)
        | none => Except.ok (VInt 99)

/-- The course-code cleaning of `transformCourse`: uppercase, trim, keep only
letters and digits (`unicode.IsLetter || unicode.IsNumber`, ASCII model). -/
def cleanCourse (s : String) : String :=
  String.mk ((trimStr (upperStr s)).data.filter (fun c => c.isAlpha || c.isDigit))

/-- `transformCourse` (lines 1984-2025) with its database side effect: a
cleaned 7-character code that is missing from the `courses` table is inserted
with the placeholder name `Course <code>` (`ON CONFLICT DO NOTHING`); the
historical audit table is never touched on this path.  The first component
is the transform's `(interface{}, error)` result. -/
def transformCourseEff (db : Db) (s : String) : Except String Val × Db :=
  if s = "" then (Except.ok VNull, db)
  else
    let c := cleanCourse s
    if c.length ≠ 7 then (Except.error ("invalid course code format: " ++ c), db)
    else
      let exists0 := db.courses.any (fun p => p.1 = c)
      if exists0 then (Except.ok (VStr c), db)
      else
        (Except.ok (VStr c),
         ⟨db.states, db.courses ++ [(c, "Course " ++ c)], db.audit, db.insts⟩)

/-- The value component of `transformCourse`, as used by the row pipeline. -/
def transformCourse (db : Db) (s : String) : Except String Val :=
  (transformCourseEff db s).1

/-- `GetInstitutionID` (lines 1287-1340): the lookup map holds `inid → inid`
and, for non-empty abbreviations, `inabv → inid`; Go map writes let the last
insertion win. -/
def instPairs (rows : List (String × String × String)) : List (String × String) :=
  rows.foldl
    (fun acc r => acc ++ [(r.1, r.1)] ++ (if r.2.1 = "" then [] else [(r.2.1, r.1)])) []

def lookupLastInst (pairs : List (String × String)) (k : String) : Option String :=
  ((pairs.filter (fun p => p.1 = k)).getLast?).map (fun p => p.2)

def getInstitutionID (db : Db) (code : String) : Option String :=
  lookupLastInst (instPairs db.insts) (trimStr code)

/-- `transformInstitution` (lines 2111-2126). -/
def transformInstitution (db : Db) (s : String) : Except String Val :=
  if s = "" then Except.ok VNull
  else
    match getInstitutionID db (trimStr s) with
    | some id => Except.ok (VStr id)
    | none =>
        Except.error ("error transforming institution code: invalid institution code: "
          ++ trimStr s)

/-- `transformGender` (lines 2327-2340). -/
def transformGender (s : String) : Except String Val :=
  if s = "" then Except.ok VNull
  else
    let u := upperStr (trimStr s)
    if u = "M" ∨ u = "MALE" then Except.ok (VStr "M")
    else if u = "F" ∨ u = "FEMALE" then Except.ok (VStr "F")
    else Except.error ("invalid gender value: " ++ u)

/-- `transformString`. -/
def transformString (s : String) : Except String Val :=
  Except.ok (VStr (trimStr s))

/-- Model of `strconv.Atoi`: optional sign then one or more ASCII digits
(overflow outside the model). -/
def parseIntGo (s : String) : Except String Int :=
  match s.data with
  | [] => Except.error "invalid syntax"
  | c :: rest =>
      let signed : Bool × List Char :=
        if c = '-' then (true, rest)
        else if c = '+' then (false, rest)
        else (false, c :: rest)
      if signed.2.isEmpty then Except.error "invalid syntax"
      else if signed.2.all Char.isDigit then
        let n : Nat := signed.2.foldl (fun acc d => acc * 10 + (d.toNat - '0'.toNat)) 0
        Except.ok (if signed.1 then -(n : Int) else (n : Int))
      else Except.error "invalid syntax"

/-- `transformInt` (lines 2154-2159): only the exactly-empty string becomes
null; anything else goes through `strconv.Atoi` unchanged. -/
def transformInt (s : String) : Except String Val :=
  if s = "" then Except.ok VNull
  else
    match parseIntGo s with
    | Except.ok n => Except.ok (VInt n)
    | Except.error e => Except.error e

/-- `transformAdmission` (lines 2128-2133). -/
def transformAdmission (isAdmission : Bool) (_s : String) : Except String Val :=
  if isAdmission then Except.ok (VBool true) else Except.ok VNull

/-! ### `ValidateCourseCode` / `storeHistoricalCode` (lines 1224-1258)

A known code validates silently; an unknown code stores one audit row
(`ON CONFLICT (year, old_course_code, institution_id) DO NOTHING`) and
returns the typed `HistoricalCourseError`. -/

def insertHistoricalCode (audit : List HistoricalCourseError)
    (t : HistoricalCourseError) : List HistoricalCourseError :=
  if t ∈ audit then audit else audit ++ [t]

def validateCourseCode (db : Db) (courseCode : String) (year institutionID : Int) :
    Option HistoricalCourseError × Db :=
  if db.courses.any (fun p => p.1 = courseCode) then (none, db)
  else
    let e : HistoricalCourseError := ⟨courseCode, year, institutionID⟩
    (some e, ⟨db.states, db.courses, insertHistoricalCode db.audit e, db.insts⟩)

/-! ### `DefaultColumnMappings` and `transformRecord` (lines 2228-2272 and
2367-2391, the revision the Loader and Analyzer pipelines share) -/

abbrev TransformFunc := String → Except String Val

def okNull : TransformFunc := fun _ => Except.ok VNull

def okFalse : TransformFunc := fun _ => Except.ok (VBool false)

def defaultColumnMappings (db : Db) (year : Int) (isAdmission : Bool) :
    List (String × String × TransformFunc) :=
  [("RegNumber", "regnumber", transformString),
   ("MaritalStatus", "maritalstatus", okNull),
   ("Challenged", "challenged", okNull),
   ("Blind", "blind", okFalse),
   ("Deaf", "deaf", okFalse),
   ("ExamTown", "examtown", okNull),
   ("ExamCentre", "examcentre", okNull),
   ("ExamNo", "examno", okNull),
   ("Address", "address", okNull),
   ("NoOfSittings", "noofsittings", okNull),
   ("DateSaved", "datesaved", okNull),
   ("TimeSaved", "timesaved", okNull),
   ("MockCand", "mockcand", okFalse),
   ("MockState", "mockstate", okNull),
   ("MockTown", "mocktown", okNull),
   ("DateCreated", "datecreated", okNull),
   ("Email", "email", okNull),
   ("GSMNo", "gsmno", okNull),
   ("Surname", "surname", okNull),
   ("FirstName", "firstname", okNull),
   ("MiddleName", "middlename", okNull),
   ("DateofBirth", "dateofbirth", transformString),
   ("Gender", "gender", transformGender),
   ("State", "statecode", transformState db),
   ("Subj1", "subj1", okNull),
   ("Score1", "score1", okNull),
   ("Subj2", "subj2", okNull),
   ("Score2", "score2", okNull),
   ("Subj3", "subj3", okNull),
   ("Score3", "score3", okNull),
   ("Subj4", "subj4", okNull),
   ("Score4", "score4", okNull),
   ("Aggregate", "aggregate", okNull),
   ("CourseCode", "app_course1", transformCourse db),
   ("InstitutionCode", "inid", transformInstitution db),
   ("Lga", "lg_id", transformInt),
   ("Year", "year", fun _ => Except.ok (VInt year)),
   ("IsAdmitted", "is_admitted", transformAdmission isAdmission)]

/-- The loop body of `transformRecord`: a mapping whose source column is
absent from the headers, or whose index lies beyond the record, contributes
`nil` (the configured year for the `year` destination); otherwise the cell is
handed to the mapping's transform, whose error aborts the whole record with
the `error transforming <column>` wrapper. -/
def transformRecordGo (year : Int) (headers record : List String) :
    List (String × String × TransformFunc) → Except String (List Val)
  | [] => Except.ok []
  | (src, dest, tf) :: rest =>
      match getColumnIndex headers src with
      | none =>
          match transformRecordGo year headers record rest with
          | Except.error e => Except.error e
          | Except.ok vs =>
              Except.ok ((if dest = "year" then VInt year else VNull) :: vs)
      | some idx =>
          if record.length ≤ idx then
            match transformRecordGo year headers record rest with
            | Except.error e => Except.error e
            | Except.ok vs =>
                Except.ok ((if dest = "year" then VInt year else VNull) :: vs)
          else
            match tf (record.getD idx "") with
            | Except.error e => Except.error ("error transforming " ++ src ++ ": " ++ e)
            | Except.ok v =>
                match transformRecordGo year headers record rest with
                | Except.error e => Except.error e
                | Except.ok vs => Except.ok (v :: vs)

def transformRecord (db : Db) (year : Int) (isAdmission : Bool)
    (headers record : List String) : Except String (List Val) :=
  transformRecordGo year headers record (defaultColumnMappings db year isAdmission)

def isTransformError {α : Type} : Except String α → Bool
  | Except.error _ => true
  | Except.ok _ => false

/-! ### `processChunk` and the analyzer chunking (lines 1676-1817) -/

structure FailedImport where
  regNumber : String
  courseCode : String
  stateCode : String
  gender : String
  failReason : String
  rowData : List String
deriving DecidableEq

structure ChunkResult where
  processedRows : Nat
  failedImports : List FailedImport
deriving DecidableEq

/-- Diagnostic cell extraction of `processChunk`: the Go code uses the value
only when `0 ≤ idx < len(record)`; the Go zero value `""` stands otherwise. -/
def fieldAt (headers record : List String) (name : String) : String :=
  match getColumnIndex headers name with
  | some i => if i < record.length then record.getD i "" else ""
  | none => ""

/-- One iteration of the `processChunk` record loop. -/
def processChunkStep (db : Db) (year : Int) (isAdmission : Bool)
    (headers : List String) (acc : ChunkResult) (record : List String) : ChunkResult :=
  match transformRecord db year isAdmission headers record with
  | Except.ok _ => ⟨acc.processedRows + 1, acc.failedImports⟩
  | Except.error e =>
      ⟨acc.processedRows + 1,
       acc.failedImports ++
         [⟨fieldAt headers record "RegNumber", fieldAt headers record "CourseCode",
           fieldAt headers record "State", fieldAt headers record "Gender",
           e, record⟩]⟩

/-- `processChunk`: every record counts as processed; records whose
transformation fails are collected with the failure reason and the
RegNumber / CourseCode / State / Gender diagnostic cells. -/
def processChunk (db : Db) (year : Int) (isAdmission : Bool)
    (headers : List String) (records : List (List String)) : ChunkResult :=
  records.foldl (processChunkStep db year isAdmission headers) ⟨0, []⟩

/-- `records[start:end]` of Go: drop `start` after taking `end`. -/
def sliceL {α : Type} (l : List α) (start stop : Nat) : List α :=
  (l.take stop).drop start

/-- The chunk loop of `AnalyzeFailedImports` (lines 1775-1801): worker `i`
receives `allRecords[i*rpw : min((i+1)*rpw, n)]`, and the loop breaks at the
first worker whose start index reaches the record count. -/
def chunksGo {α : Type} (rpw : Nat) (records : List α) : Nat → Nat → List (List α)
  | _, 0 => []
  | i, k + 1 =>
      if records.length ≤ i * rpw then []
      else
        sliceL records (i * rpw) (min (i * rpw + rpw) records.length) ::
          chunksGo rpw records (i + 1) k

/-- The analyzer's partition of the whole file into `workerCount` contiguous
chunks, `recordsPerWorker = ⌈n / workerCount⌉`. -/
def analyzerChunks {α : Type} (workerCount : Nat) (records : List α) : List (List α) :=
  chunksGo ((records.length + workerCount - 1) / workerCount) records 0 workerCount

/-! ### The `ImportData` pre-flight trace (second revision, lines 1491-1519)

The call initializes the three resolver caches (one table query each), reads
the header row, and only then validates headers; rows are read afterwards.
The trace records these I/O events in program order. -/

inductive Ev where
  | dbQueryState : Ev
  | dbQueryCourses : Ev
  | dbQueryInstitutions : Ev
  | readHeaderRow : Ev
  | readDataRow : Nat → Ev
deriving DecidableEq

def importDataTrace (p : ConfirmPolicy) (requiredColumns headers : List String)
    (rows : List (List String)) : List Ev × Except (List String) Unit :=
  let pre := [Ev.dbQueryState, Ev.dbQueryCourses, Ev.dbQueryInstitutions, Ev.readHeaderRow]
  match validateHeaders p requiredColumns headers with
  | Except.error missing => (pre, Except.error missing)
  | Except.ok _ =>
      (pre ++ (List.range rows.length).map Ev.readDataRow, Except.ok ())

/-! ### The upsert conflict policies (lines 722-759 and 2342-2365, 2442-2450)

The `candidate` table is abstracted as a map from the `regnumber` key to the
stored row (one `Val` per statement column).  The first revision's statement
updates every non-key column with
`col = COALESCE(NULLIF(EXCLUDED.col, \x27\x27), candidate.col)`; the second
revision's `buildUpdateClause` writes `col = EXCLUDED.col` for every non-key
column.  Both skip the `regnumber` primary key. -/

/-- `NULLIF(v, \x27\x27)`. -/
def nullifEmptyStr : Val → Val
  | VStr s => if s = "" then VNull else VStr s
  | v => v

/-- `COALESCE(a, b)`. -/
def coalesceV : Val → Val → Val
  | VNull, b => b
  | a, _ => a

/-- One non-key column of the COALESCE-based update clause. -/
def coalMerge (stored incoming : Val) : Val :=
  coalesceV (nullifEmptyStr incoming) stored

/-- One non-key column of `buildUpdateClause`: the incoming value wins. -/
def overwriteField (_stored incoming : Val) : Val := incoming

/-- SQL NULL and the empty string: the values `NULLIF(·, \x27\x27)` nulls. -/
def isEmptyV : Val → Bool
  | VNull => true
  | VStr s => s = ""
  | _ => false

/-- The 38 statement columns of the second revision's
`prepareInsertStatement`; `regnumber` is the conflict target. -/
def candidateColumns : List String :=
  ["regnumber", "maritalstatus", "challenged", "blind", "deaf",
   "examtown", "examcentre", "examno", "address", "noofsittings",
   "datesaved", "timesaved", "mockcand", "mockstate", "mocktown",
   "datecreated", "email", "gsmno", "surname", "firstname",
   "middlename", "dateofbirth", "gender", "statecode",
   "subj1", "score1", "subj2", "score2", "subj3", "score3",
   "subj4", "score4", "aggregate", "app_course1", "inid",
   "lg_id", "year", "is_admitted"]

/-- `DO UPDATE SET` with per-column update function `u`: every column named
`regnumber` keeps the stored value, every other column becomes
`u stored incoming`. -/
def updRow (u : Val → Val → Val) (cols : List String) (stored incoming : List Val) :
    List Val :=
  (List.range cols.length).map (fun i =>
    if cols.getD i "" = "regnumber" then stored.getD i VNull
    else u (stored.getD i VNull) (incoming.getD i VNull))

/-- A fresh `INSERT`: the incoming values, one per statement column. -/
def insRow (cols : List String) (incoming : List Val) : List Val :=
  (List.range cols.length).map (fun i => incoming.getD i VNull)

/-- The conflict key of an incoming row: its value at the `regnumber`
column. -/
def rowKey (cols : List String) (incoming : List Val) : Val :=
  incoming.getD (cols.indexOf "regnumber") VNull

/-- The stored table, keyed by `regnumber` value. -/
def CandTable : Type := Val → Option (List Val)

def emptyTable : CandTable := fun _ => none

/-- One `INSERT ... ON CONFLICT (regnumber) DO UPDATE` execution. -/
def upsertRow (u : Val → Val → Val) (cols : List String) (t : CandTable)
    (incoming : List Val) : CandTable :=
  fun k =>
    if k = rowKey cols incoming then
      some (match t (rowKey cols incoming) with
            | none => insRow cols incoming
            | some stored => updRow u cols stored incoming)
    else t k

/-- Executing the prepared upsert for every row of a run, in order. -/
def importRows (u : Val → Val → Val) (cols : List String) (t : CandTable)
    (rows : List (List Val)) : CandTable :=
  rows.foldl (upsertRow u cols) t

/-! ### The first revision's batch/commit/cancellation loop (lines 556-720)

`ImportData` reads rows into a buffer, executes the whole buffer inside the
open transaction once it holds `batchSize` rows, commits, and opens a fresh
transaction with a re-prepared statement; the final partial buffer is
executed and committed after EOF.  The transaction is opened with
`db.BeginTx(ctx, ...)` (lines 580 and 644), so it is bound to the
cancellation context: per the `database/sql` contract, once the context is
canceled the package rolls the transaction back and `Tx.Commit` returns the
context error instead of committing.  Cooperative cancellation is observed
at three kinds of points: before each read at the top of the loop (where the
function returns `import cancelled`, the open transaction holding no
executed rows), before each row execution inside `processBatch` (where the
batch loop stops executing), and at `tx.Commit` itself (which fails whenever
the context is already canceled, so the partially executed batch is rolled
back, never persisted, and `ImportData` returns the commit error).  The
clock counts observation points; the external signal fires at point
`cancelAt`.  Statement preparation is not observable in this persistence
model; rows whose execution fails against an already rolled-back transaction
are persistence-equivalent to unexecuted rows, since the surrounding commit
fails either way. -/

structure V1St where
  clock : Nat
  committed : List Nat
  commits : Nat
deriving DecidableEq

/-- How a run of `ImportData` returns: normally, through the
`import cancelled` branch of the top-of-loop context check, or through a
failing `tx.Commit` (`error committing batch`). -/
inductive V1Outcome where
  | completed : V1Outcome
  | cancelled : V1Outcome
  | commitFailed : V1Outcome
deriving DecidableEq

/-- Row executions of `processBatch` until the cancellation checkpoint
fires: returns the executed prefix of the batch. -/
def execBatch (cancelAt : Nat) : List Nat → V1St → List Nat × V1St
  | [], st => ([], st)
  | r :: rest, st =>
      if cancelAt ≤ st.clock then ([], ⟨st.clock + 1, st.committed, st.commits⟩)
      else
        let res := execBatch cancelAt rest ⟨st.clock + 1, st.committed, st.commits⟩
        (r :: res.1, res.2)

/-- The read/batch/commit loop.  A batch's executed rows reach `committed`
only when its `tx.Commit` succeeds, i.e. when the context is still alive at
commit time; a commit attempted after cancellation fails and the open
transaction's rows are discarded (rolled back). -/
def v1Go (cancelAt batchSize : Nat) : List Nat → List Nat → V1St → V1St × V1Outcome
  | remaining, batch, st =>
      if cancelAt ≤ st.clock then
        (⟨st.clock + 1, st.committed, st.commits⟩, V1Outcome.cancelled)
      else
        let st1 : V1St := ⟨st.clock + 1, st.committed, st.commits⟩
        match remaining with
        | [] =>
            if batch.isEmpty then (st1, V1Outcome.completed)
            else
              let res := execBatch cancelAt batch st1
              if cancelAt ≤ res.2.clock then (res.2, V1Outcome.commitFailed)
              else
                (⟨res.2.clock, res.2.committed ++ res.1, res.2.commits + 1⟩,
                 V1Outcome.completed)
        | r :: rest =>
            let batch' := batch ++ [r]
            if batchSize ≤ batch'.length then
              let res := execBatch cancelAt batch' st1
              if cancelAt ≤ res.2.clock then (res.2, V1Outcome.commitFailed)
              else
                v1Go cancelAt batchSize rest []
                  ⟨res.2.clock, res.2.committed ++ res.1, res.2.commits + 1⟩
            else v1Go cancelAt batchSize rest batch' st1

/-- A run of the first revision's `ImportData` over `rows` with batch size
`batchSize`, cancellation firing at observation point `cancelAt`. -/
def v1Run (cancelAt batchSize : Nat) (rows : List Nat) : V1St × V1Outcome :=
  v1Go cancelAt batchSize rows [] ⟨0, [], 0⟩

/-! ### The second revision's ImportData (lines 1491-1596)

The second revision opens ONE transaction (line 1521) with one prepared
statement and runs every batch inside it: a full buffer only triggers
`processBatch` executions against that same transaction, and the single
`tx.Commit` happens after EOF (line 1584).  The top-of-loop context check
returns `ctx.Err()` on cancellation, and the EOF commit fails when the
context is already canceled (the transaction was begun with
`BeginTx(ctx)`), so an interrupted run never persists anything.  The guard
`if len(records) > 0` before the final `processBatch` only skips a no-op,
so the model processes the final buffer unconditionally. -/

structure V2St where
  clock : Nat
  executed : List Nat
  committed : List Nat
  commits : Nat
deriving DecidableEq

/-- `processBatch` of the second revision: per-row context check, executing
rows into the single open transaction. -/
def v2ExecBatch (cancelAt : Nat) : List Nat → V2St → V2St
  | [], st => st
  | r :: rest, st =>
      if cancelAt ≤ st.clock then
        ⟨st.clock + 1, st.executed, st.committed, st.commits⟩
      else
        v2ExecBatch cancelAt rest
          ⟨st.clock + 1, st.executed ++ [r], st.committed, st.commits⟩

/-- The second revision's read/batch loop: batch boundaries trigger only
executions; the one commit happens at EOF and makes the transaction's
executed rows visible, failing if the context is canceled by then. -/
def v2Go (cancelAt batchSize : Nat) : List Nat → List Nat → V2St → V2St × V1Outcome
  | remaining, batch, st =>
      if cancelAt ≤ st.clock then
        (⟨st.clock + 1, st.executed, st.committed, st.commits⟩, V1Outcome.cancelled)
      else
        let st1 : V2St := ⟨st.clock + 1, st.executed, st.committed, st.commits⟩
        match remaining with
        | [] =>
            let st2 := v2ExecBatch cancelAt batch st1
            if cancelAt ≤ st2.clock then (st2, V1Outcome.commitFailed)
            else
              (⟨st2.clock, [], st2.executed, st2.commits + 1⟩, V1Outcome.completed)
        | r :: rest =>
            let batch' := batch ++ [r]
            if batchSize ≤ batch'.length then
              v2Go cancelAt batchSize rest [] (v2ExecBatch cancelAt batch' st1)
            else v2Go cancelAt batchSize rest batch' st1

/-- A run of the second revision's `ImportData`. -/
def v2Run (cancelAt batchSize : Nat) (rows : List Nat) : V2St × V1Outcome :=
  v2Go cancelAt batchSize rows [] ⟨0, [], [], 0⟩

/-! ### Remaining auxiliary definitions used by the statements -/

deriving instance DecidableEq for Except

/-- Selector form shared by the two per-column update policies: keep the
incoming value exactly when `P` holds of it, otherwise keep the stored
value. -/
def selUpd (P : Val → Bool) (stored incoming : Val) : Val :=
  if P incoming then incoming else stored

/-- The last element of a list satisfying `P`, if any. -/
def lastSel (P : Val → Bool) : List Val → Option Val
  | [] => none
  | v :: vs =>
      match lastSel P vs with
      | some w => some w
      | none => if P v then some v else none

/-- True when a mapping's source column is absent from the headers or its
resolved index lies beyond the record's length — the guard of
`transformRecord` that yields a null (or year) value. -/
def colMissingOrOOB (headers record : List String) (src : String) : Bool :=
  match getColumnIndex headers src with
  | none => true
  | some i => decide (record.length ≤ i)

/-- The (source, destination) column names of `DefaultColumnMappings`, in
order. -/
def mappingNames : List (String × String) :=
  [("RegNumber", "regnumber"), ("MaritalStatus", "maritalstatus"),
   ("Challenged", "challenged"), ("Blind", "blind"), ("Deaf", "deaf"),
   ("ExamTown", "examtown"), ("ExamCentre", "examcentre"), ("ExamNo", "examno"),
   ("Address", "address"), ("NoOfSittings", "noofsittings"),
   ("DateSaved", "datesaved"), ("TimeSaved", "timesaved"),
   ("MockCand", "mockcand"), ("MockState", "mockstate"), ("MockTown", "mocktown"),
   ("DateCreated", "datecreated"), ("Email", "email"), ("GSMNo", "gsmno"),
   ("Surname", "surname"), ("FirstName", "firstname"), ("MiddleName", "middlename"),
   ("DateofBirth", "dateofbirth"), ("Gender", "gender"), ("State", "statecode"),
   ("Subj1", "subj1"), ("Score1", "score1"), ("Subj2", "subj2"), ("Score2", "score2"),
   ("Subj3", "subj3"), ("Score3", "score3"), ("Subj4", "subj4"), ("Score4", "score4"),
   ("Aggregate", "aggregate"), ("CourseCode", "app_course1"),
   ("InstitutionCode", "inid"), ("Lga", "lg_id"), ("Year", "year"),
   ("IsAdmitted", "is_admitted")]

/-- Default mapping triple for `getD` on the mappings list. -/
def dMap : String × String × TransformFunc := ("", "", okNull)

/-- An empty database (all reference tables empty). -/
def db0 : Db := ⟨[], [], [], []⟩

/-- One upsert execution at the level of a single key's stored row (`none`
when the key is absent): insert on absence, update through the per-column
policy on conflict. -/
def gStep (P : Val → Bool) (cols : List String) (o : Option (List Val))
    (r : List Val) : Option (List Val) :=
  some (match o with
        | none => insRow cols r
        | some stored => updRow (selUpd P) cols stored r)

/-- Replaying a key's incoming rows against its stored state. -/
def runK (P : Val → Bool) (cols : List String) (o : Option (List Val))
    (l : List (List Val)) : Option (List Val) :=
  l.foldl (gStep P cols) o

/-! ## Theorems -/

/-! ### C6 — header "Reg_No" against required field "RegNumber" -/

/-- C6 counterexample: the claim asserts that "Reg_No" reconciles to
"RegNumber" with fuzzy confidence at least 0.6 and is listed as a candidate
match.  In fact the confidence is 4/9 < 3/5, so `findBestColumnMatch` lists
no candidate at all. -/
theorem C6_RegNo_not_listed :
    fuzzyConfidence "RegNumber" "Reg_No" < 3 / 5 ∧
    findBestColumnMatch "RegNumber" ["Reg_No"] = [] := by
  constructor
  · have hd : fuzzyDist "RegNumber" "Reg_No" = 5 := by decide
    have hm : fuzzyMaxLen "RegNumber" "Reg_No" = 9 := by decide
    rw [fuzzyConfidence, hd, hm]
    norm_num
  · decide

/-- C6 amended: "Reg_No" normalizes to "regno" and "RegNumber" to
"regnumber", at Levenshtein distance 5 of maximum length 9, so the fuzzy
confidence is exactly 4/9 (about 0.44, below the 0.6 listing threshold), and
the exact matcher `getColumnIndex` does not match the pair either; the field
therefore stays unmapped when "Reg_No" is the only candidate header. -/
theorem C6_RegNo_confidence_value :
    normalizeCol "Reg_No" = "regno" ∧
    normalizeCol "RegNumber" = "regnumber" ∧
    levenshteinDistance "regno" "regnumber" = 5 ∧
    fuzzyConfidence "RegNumber" "Reg_No" = 4 / 9 ∧
    getColumnIndex ["Reg_No"] "RegNumber" = none ∧
    validateHeaders alwaysReject ["RegNumber"] ["Reg_No"] = Except.error ["RegNumber"] := by
  refine ⟨by decide, by decide, by decide, ?_, by decide, by decide⟩
  have hd : fuzzyDist "RegNumber" "Reg_No" = 5 := by decide
  have hm : fuzzyMaxLen "RegNumber" "Reg_No" = 9 := by decide
  rw [fuzzyConfidence, hd, hm]
  norm_num

/-! ### C10 — `transformCourse` accepts exactly the 7-character cleaned
codes -/

/-- C10: the course transform used by the row pipeline maps the empty input
to null with no error; any other input is uppercased, trimmed and stripped
to alphanumerics, then accepted exactly when the cleaned code has length 7
(the accepted value being the cleaned code), every other cleaned length
giving the per-row `invalid course code format` error. -/
theorem C10_transformCourse_format :
    ∀ (db : Db) (s : String),
      transformCourse db s =
        if s = "" then Except.ok VNull
        else if (cleanCourse s).length = 7 then Except.ok (VStr (cleanCourse s))
        else Except.error ("invalid course code format: " ++ cleanCourse s) := by
  intro db s
  by_cases hs : s = ""
  · simp [transformCourse, transformCourseEff, hs]
  · by_cases hl : (cleanCourse s).length = 7
    · have h7 : ¬(cleanCourse s).length ≠ 7 := by simp [hl]
      simp only [transformCourse, transformCourseEff, if_neg hs, if_neg h7, if_pos hl]
      split <;> rfl
    · simp [transformCourse, transformCourseEff, hs, hl]

/-! ### C4 — course resolution audit trail -/

/-- C4 counterexample: the course code "1234567" fails canonical resolution
(the course table is empty), yet on the course-transform path actually used
by the Loader's row pipeline no `HistoricalCourseCode` audit row is
persisted and no historical-course error is returned: the transform
succeeds, auto-creating a placeholder course instead. -/
theorem C4_transform_path_no_audit :
    (transformCourseEff db0 "1234567").1 = Except.ok (VStr "1234567") ∧
    (transformCourseEff db0 "1234567").2.audit = [] ∧
    (transformCourseEff db0 "1234567").2.courses = [("1234567", "Course 1234567")] := by
  decide

/-- C4 amended: `ValidateCourseCode` itself behaves as the claim describes —
an unresolved code yields the distinct typed `HistoricalCourseError` and an
audit insert that is a no-op when the (year, code, institution) triple is
already present, so any call sequence keeps at most one row per triple —
but the Loader's pipeline path `transformCourse` never touches the audit
table. -/
theorem C4_validateCourseCode_audit :
    (∀ (db : Db) (code : String) (y i : Int),
        db.courses.any (fun p => p.1 = code) = false →
        (validateCourseCode db code y i).1 = some ⟨code, y, i⟩ ∧
        (validateCourseCode db code y i).2.audit =
          insertHistoricalCode db.audit ⟨code, y, i⟩) ∧
    (∀ (db : Db) (code : String) (y i : Int),
        db.courses.any (fun p => p.1 = code) = true →
        validateCourseCode db code y i = (none, db)) ∧
    (∀ (audit ts : List HistoricalCourseError),
        audit.Nodup → (ts.foldl insertHistoricalCode audit).Nodup) ∧
    (∀ (db : Db) (s : String), (transformCourseEff db s).2.audit = db.audit) := by
  refine ⟨?_, ?_, ?_, ?_⟩
  · intro db code y i h
    simp [validateCourseCode, h]
  · intro db code y i h
    simp [validateCourseCode, h]
  · intro audit ts
    induction ts generalizing audit with
    | nil => intro h; simpa using h
    | cons t rest ih =>
        intro h
        refine ih (insertHistoricalCode audit t) ?_
        by_cases ht : t ∈ audit
        · simpa [insertHistoricalCode, ht] using h
        · simp [insertHistoricalCode, ht, List.nodup_append, h]
  · intro db s
    by_cases hs : s = ""
    · simp [transformCourseEff, hs]
    · by_cases hl : (cleanCourse s).length = 7
      · simp only [transformCourseEff, if_neg hs]
        simp only [if_neg (by simp [hl] : ¬(cleanCourse s).length ≠ 7)]
        split <;> rfl
      · simp [transformCourseEff, hs, hl]

/-- C4 witness: the amended theorem applied at the empty database and the
unresolved code "ABC1234". -/
theorem C4_witness :
    (validateCourseCode db0 "ABC1234" 2024 5).1 = some ⟨"ABC1234", 2024, 5⟩ ∧
    (validateCourseCode db0 "ABC1234" 2024 5).2.audit =
      insertHistoricalCode [] ⟨"ABC1234", 2024, 5⟩ :=
  C4_validateCourseCode_audit.1 db0 "ABC1234" 2024 5 (by decide)

/-! ### C7 — state alias resolution and the sentinel fallback -/

/-- C7 counterexample: "XYZ LAGOS" matches no canonical name exactly, by
alias (neither literal map rewrites it), or within Levenshtein distance 2
(`getStateID` fails with the closest name at distance 4), yet the state
transform does not return the sentinel 99: the word-splitting retry resolves
the word "LAGOS" and returns 25. -/
theorem C7_word_fallback_not_sentinel :
    specialCasesState "XYZ LAGOS" = "XYZ LAGOS" ∧
    foreignStates "XYZ LAGOS" = "XYZ LAGOS" ∧
    getStateID [(25, "LAGOS")] "XYZ LAGOS" = none ∧
    levenshteinDistance "XYZ LAGOS" "LAGOS" = 4 ∧
    transformState ⟨[(25, "LAGOS")], [], [], []⟩ "XYZ LAGOS" = Except.ok (VInt 25) ∧
    (Except.ok (VInt 25) : Except String Val) ≠ Except.ok (VInt 99) := by
  decide

/-- C7 amended: the resolver maps "AKWA-IBOM" and "AKWA IBOM" to the same
lookup key, hence the same canonical identifier over any state table; and a
non-empty input on which canonical resolution fails both for the cleaned
whole string and for every whitespace-separated word of it is mapped to the
sentinel identifier 99 with no error. -/
theorem C7_state_alias_and_sentinel :
    (∀ states : List (Int × String),
        getStateID states "AKWA-IBOM" = getStateID states "AKWA IBOM") ∧
    (∀ (db : Db) (s : String), s ≠ "" →
        getStateID db.states (foreignStates (replaceDashSpace (trimStr (upperStr s)))) =
          none →
        (∀ w ∈ fieldsStr
            (replaceDashSpace (foreignStates (replaceDashSpace (trimStr (upperStr s))))),
            getStateID db.states w = none) →
        transformState db s = Except.ok (VInt 99)) := by
  constructor
  · intro states
    have h : specialCasesState (upperStr (trimStr "AKWA-IBOM")) =
        specialCasesState (upperStr (trimStr "AKWA IBOM")) := by decide
    simp only [getStateID, h]
  · intro db s hs hwhole hwords
    simp only [transformState, if_neg hs, hwhole]
    have hnone :
        (fieldsStr (replaceDashSpace
            (foreignStates (replaceDashSpace (trimStr (upperStr s)))))).findSome?
          (fun w => getStateID db.states w) = none := by
      rw [List.findSome?_eq_none_iff]
      exact hwords
    rw [hnone]

/-- C7 witness: the amended theorem's sentinel branch applied to the state
table containing only LAGOS and the unrecognized input "ATLANTIS". -/
theorem C7_witness :
    transformState ⟨[(1, "LAGOS")], [], [], []⟩ "ATLANTIS" = Except.ok (VInt 99) :=
  C7_state_alias_and_sentinel.2 ⟨[(1, "LAGOS")], [], [], []⟩ "ATLANTIS"
    (by decide) (by decide) (by decide)

/-! ### C3 — missing-columns failure: completeness and pre-flight timing -/

/-- The accumulator loop of `validateHeaders` computes the filter/filterMap
of the per-field resolution. -/
theorem validateHeadersGo_spec (p : ConfirmPolicy) (headers : List String) :
    ∀ (req : List String) (mapping : List (String × String)) (missing : List String),
      validateHeadersGo p headers req mapping missing =
        (if (missing ++ req.filter (fun r => (resolveField p headers r).isNone)).isEmpty
         then Except.ok (mapping ++
            req.filterMap (fun r => (resolveField p headers r).map (fun h => (r, h))))
         else Except.error
            (missing ++ req.filter (fun r => (resolveField p headers r).isNone))) := by
  intro req
  induction req with
  | nil => intro mapping missing; simp [validateHeadersGo]
  | cons r rest ih =>
      intro mapping missing
      cases hres : resolveField p headers r with
      | some h =>
          simp only [validateHeadersGo, hres, ih, List.filter_cons, List.filterMap_cons,
            Option.isNone_some, Bool.false_eq_true, if_false, hres, Option.map_some]
          simp [List.append_assoc]
      | none =>
          simp only [validateHeadersGo, hres, ih, List.filter_cons, List.filterMap_cons,
            Option.isNone_none, if_true]
          simp [List.append_assoc]

/-- C3 counterexample: with required field "RegNumber" and the sole source
header "Foo", header validation fails with the missing-columns error, but
the failing `ImportData` call has already performed I/O before producing it:
the three resolver-initialization table queries and the header-row read all
appear in the trace, refuting "before any other I/O is performed". -/
theorem C3_io_before_failure :
    validateHeaders alwaysReject ["RegNumber"] ["Foo"] = Except.error ["RegNumber"] ∧
    (importDataTrace alwaysReject ["RegNumber"] ["Foo"] []).2 =
      Except.error ["RegNumber"] ∧
    Ev.dbQueryState ∈ (importDataTrace alwaysReject ["RegNumber"] ["Foo"] []).1 ∧
    Ev.dbQueryCourses ∈ (importDataTrace alwaysReject ["RegNumber"] ["Foo"] []).1 ∧
    Ev.dbQueryInstitutions ∈ (importDataTrace alwaysReject ["RegNumber"] ["Foo"] []).1 ∧
    Ev.readHeaderRow ∈ (importDataTrace alwaysReject ["RegNumber"] ["Foo"] []).1 := by
  decide

/-- C3 amended: if any required field is unmapped after exact and fuzzy
matching, `validateHeaders` fails with the list of exactly the unmapped
required fields, in order (an empty such list meaning success with the
accumulated mapping); the failing run reads no data row — its trace is
exactly the three resolver-initialization queries followed by the header-row
read, which do perform I/O before the failure. -/
theorem C3_missing_columns_preflight :
    (∀ (p : ConfirmPolicy) (req headers : List String),
        validateHeaders p req headers =
          (if (req.filter (fun r => (resolveField p headers r).isNone)).isEmpty
           then Except.ok
              (req.filterMap (fun r => (resolveField p headers r).map (fun h => (r, h))))
           else Except.error
              (req.filter (fun r => (resolveField p headers r).isNone)))) ∧
    (∀ (p : ConfirmPolicy) (req headers : List String) (rows : List (List String))
        (missing : List String),
        validateHeaders p req headers = Except.error missing →
        (importDataTrace p req headers rows).1 =
          [Ev.dbQueryState, Ev.dbQueryCourses, Ev.dbQueryInstitutions,
           Ev.readHeaderRow] ∧
        (∀ i : Nat, Ev.readDataRow i ∉ (importDataTrace p req headers rows).1) ∧
        (importDataTrace p req headers rows).2 = Except.error missing) := by
  constructor
  · intro p req headers
    simpa using validateHeadersGo_spec p headers req [] []
  · intro p req headers rows missing hval
    refine ⟨?_, ?_, ?_⟩ <;> simp [importDataTrace, hval]

/-- C3 witness: the amended theorem applied to the failing run with required
field "RegNumber", header "Foo" and one pending data row. -/
theorem C3_witness :
    (importDataTrace alwaysReject ["RegNumber"] ["Foo"] [["x"]]).1 =
      [Ev.dbQueryState, Ev.dbQueryCourses, Ev.dbQueryInstitutions, Ev.readHeaderRow] ∧
    (∀ i : Nat,
        Ev.readDataRow i ∉ (importDataTrace alwaysReject ["RegNumber"] ["Foo"] [["x"]]).1) ∧
    (importDataTrace alwaysReject ["RegNumber"] ["Foo"] [["x"]]).2 =
      Except.error ["RegNumber"] :=
  C3_missing_columns_preflight.2 alwaysReject ["RegNumber"] ["Foo"] [["x"]]
    ["RegNumber"] (by decide)

/-! ### C8 — rows with a missing/empty RegNumber -/

/-- The `processChunk` fold counts every record as processed and collects
exactly the records whose transformation fails. -/
theorem processChunk_foldl (db : Db) (year : Int) (adm : Bool) (headers : List String) :
    ∀ (records : List (List String)) (acc : ChunkResult),
      (records.foldl (processChunkStep db year adm headers) acc).processedRows =
        acc.processedRows + records.length ∧
      (records.foldl (processChunkStep db year adm headers) acc).failedImports.length =
        acc.failedImports.length +
          (records.filter
            (fun r => isTransformError (transformRecord db year adm headers r))).length := by
  intro records
  induction records with
  | nil => intro acc; simp
  | cons r rest ih =>
      intro acc
      cases htr : transformRecord db year adm headers r with
      | ok vs =>
          have hcond : isTransformError (transformRecord db year adm headers r) = false := by
            simp [isTransformError, htr]
          have hstep : processChunkStep db year adm headers acc r =
              ⟨acc.processedRows + 1, acc.failedImports⟩ := by
            simp [processChunkStep, htr]
          have hih := ih ⟨acc.processedRows + 1, acc.failedImports⟩
          have h1 : (rest.foldl (processChunkStep db year adm headers)
              ⟨acc.processedRows + 1, acc.failedImports⟩).processedRows =
              acc.processedRows + 1 + rest.length := by simpa using hih.1
          have h2 : (rest.foldl (processChunkStep db year adm headers)
              ⟨acc.processedRows + 1, acc.failedImports⟩).failedImports.length =
              acc.failedImports.length +
                (rest.filter
                  (fun x => isTransformError (transformRecord db year adm headers x))).length := by
            simpa using hih.2
          refine ⟨?_, ?_⟩
          · simp only [List.foldl_cons, hstep, List.length_cons]
            rw [h1]
            omega
          · simp only [List.foldl_cons, hstep, List.filter_cons, hcond, Bool.false_eq_true,
              if_false]
            rw [h2]
      | error e =>
          have hcond : isTransformError (transformRecord db year adm headers r) = true := by
            simp [isTransformError, htr]
          have hstep : processChunkStep db year adm headers acc r =
              ⟨acc.processedRows + 1,
               acc.failedImports ++
                 [⟨fieldAt headers r "RegNumber", fieldAt headers r "CourseCode",
                   fieldAt headers r "State", fieldAt headers r "Gender", e, r⟩]⟩ := by
            simp [processChunkStep, htr]
          have hih := ih ⟨acc.processedRows + 1,
            acc.failedImports ++
              [⟨fieldAt headers r "RegNumber", fieldAt headers r "CourseCode",
                fieldAt headers r "State", fieldAt headers r "Gender", e, r⟩]⟩
          have h1 : (rest.foldl (processChunkStep db year adm headers)
              ⟨acc.processedRows + 1,
               acc.failedImports ++
                 [⟨fieldAt headers r "RegNumber", fieldAt headers r "CourseCode",
                   fieldAt headers r "State", fieldAt headers r "Gender", e, r⟩]⟩).processedRows =
              acc.processedRows + 1 + rest.length := by simpa using hih.1
          have h2 : (rest.foldl (processChunkStep db year adm headers)
              ⟨acc.processedRows + 1,
               acc.failedImports ++
                 [⟨fieldAt headers r "RegNumber", fieldAt headers r "CourseCode",
                   fieldAt headers r "State", fieldAt headers r "Gender", e, r⟩]⟩).failedImports.length =
              acc.failedImports.length + 1 +
                (rest.filter
                  (fun x => isTransformError (transformRecord db year adm headers x))).length := by
            simpa using hih.2
          refine ⟨?_, ?_⟩
          · simp only [List.foldl_cons, hstep, List.length_cons]
            rw [h1]
            omega
          · simp only [List.foldl_cons, hstep, List.filter_cons, hcond, if_true,
              List.length_cons]
            rw [h2]
            omega

/-- C8 counterexample: a row whose RegNumber cell is present but empty is
transformed successfully (no error), the Analyzer counts it as processed
with no failed import (so no "missing required field: RegNumber" reason
exists), and the Loader's upsert persists it in the candidate table under
the empty-string key. -/
theorem C8_empty_regnumber_not_failed :
    processChunk db0 2024 false ["RegNumber"] [[""]] = ⟨1, []⟩ ∧
    isTransformError (transformRecord db0 2024 false ["RegNumber"] [""]) = false ∧
    (importRows overwriteField candidateColumns emptyTable
        [(transformRecord db0 2024 false ["RegNumber"] [""]).toOption.getD []]
      (VStr "")).isSome = true := by
  decide

/-- C8 amended: the RegNumber transform (`transformString`) never fails — an
empty cell yields the empty string, not a rejection; the Analyzer counts
every record as processed and records as failed exactly the records whose
transformation errors, so a row failing only in its RegNumber cell is never
among them. -/
theorem C8_empty_regnumber_behavior :
    (∀ s : String, transformString s = Except.ok (VStr (trimStr s))) ∧
    (∀ (db : Db) (year : Int) (adm : Bool) (headers : List String)
        (records : List (List String)),
        (processChunk db year adm headers records).processedRows = records.length ∧
        (processChunk db year adm headers records).failedImports.length =
          (records.filter
            (fun r => isTransformError (transformRecord db year adm headers r))).length) ∧
    (∀ (db : Db) (year : Int) (adm : Bool),
        isTransformError (transformRecord db year adm ["RegNumber"] [""]) = false) := by
  refine ⟨fun s => rfl, ?_, ?_⟩
  · intro db year adm headers records
    have h := processChunk_foldl db year adm headers records ⟨0, []⟩
    simpa [processChunk] using h
  · intro db year adm
    rfl

/-! ### C9 — `transformRecord` bounds safety -/

/-- A successful `transformRecordGo` yields one value per mapping. -/
theorem transformRecordGo_length (year : Int) (headers record : List String) :
    ∀ (ms : List (String × String × TransformFunc)) (vals : List Val),
      transformRecordGo year headers record ms = Except.ok vals →
      vals.length = ms.length := by
  intro ms
  induction ms with
  | nil =>
      intro vals h
      simp only [transformRecordGo] at h
      cases h
      rfl
  | cons m rest ih =>
      intro vals h
      obtain ⟨src, dest, tf⟩ := m
      simp only [transformRecordGo] at h
      cases hidx : getColumnIndex headers src with
      | none =>
          rw [hidx] at h
          cases hrest : transformRecordGo year headers record rest with
          | error e => rw [hrest] at h; cases h
          | ok vs =>
              rw [hrest] at h
              cases h
              simp [ih vs hrest]
      | some idx =>
          rw [hidx] at h
          dsimp only at h
          by_cases hlen : record.length ≤ idx
          · rw [if_pos hlen] at h
            cases hrest : transformRecordGo year headers record rest with
            | error e => rw [hrest] at h; cases h
            | ok vs =>
                rw [hrest] at h
                cases h
                simp [ih vs hrest]
          · rw [if_neg hlen] at h
            cases htf : tf (record.getD idx "") with
            | error e => rw [htf] at h; cases h
            | ok v =>
                rw [htf] at h
                cases hrest : transformRecordGo year headers record rest with
                | error e => rw [hrest] at h; cases h
                | ok vs =>
                    rw [hrest] at h
                    cases h
                    simp [ih vs hrest]

/-- On a successful `transformRecordGo`, every mapping whose source column is
missing from the headers or resolves beyond the record contributes the null
value — or the configured year for the `year` destination. -/
theorem transformRecordGo_missing (year : Int) (headers record : List String) :
    ∀ (ms : List (String × String × TransformFunc)) (vals : List Val) (j : Nat),
      transformRecordGo year headers record ms = Except.ok vals →
      j < ms.length →
      colMissingOrOOB headers record ((ms.getD j dMap).1) = true →
      vals.getD j VNull =
        (if (ms.getD j dMap).2.1 = "year" then VInt year else VNull) := by
  intro ms
  induction ms with
  | nil =>
      intro vals j _ hj _
      simp at hj
  | cons m rest ih =>
      intro vals j h hj hmiss
      obtain ⟨src, dest, tf⟩ := m
      simp only [transformRecordGo] at h
      cases hidx : getColumnIndex headers src with
      | none =>
          rw [hidx] at h
          cases hrest : transformRecordGo year headers record rest with
          | error e => rw [hrest] at h; cases h
          | ok vs =>
              rw [hrest] at h
              cases h
              cases j with
              | zero => simp
              | succ k =>
                  simp only [List.getD_cons_succ] at hmiss ⊢
                  exact ih vs k hrest (by simpa using hj) hmiss
      | some idx =>
          rw [hidx] at h
          dsimp only at h
          by_cases hlen : record.length ≤ idx
          · rw [if_pos hlen] at h
            cases hrest : transformRecordGo year headers record rest with
            | error e => rw [hrest] at h; cases h
            | ok vs =>
                rw [hrest] at h
                cases h
                cases j with
                | zero => simp
                | succ k =>
                    simp only [List.getD_cons_succ] at hmiss ⊢
                    exact ih vs k hrest (by simpa using hj) hmiss
          · rw [if_neg hlen] at h
            cases htf : tf (record.getD idx "") with
            | error e => rw [htf] at h; cases h
            | ok v =>
                rw [htf] at h
                cases hrest : transformRecordGo year headers record rest with
                | error e => rw [hrest] at h; cases h
                | ok vs =>
                    rw [hrest] at h
                    cases h
                    cases j with
                    | zero =>
                        simp only [List.getD_cons_zero] at hmiss
                        simp only [colMissingOrOOB, hidx] at hmiss
                        simp at hmiss
                        omega
                    | succ k =>
                        simp only [List.getD_cons_succ] at hmiss ⊢
                        exact ih vs k hrest (by simpa using hj) hmiss

/-- C9 counterexample: a record whose Lga cell is whitespace-only is not
mapped to null — `strconv.Atoi` rejects " " and `transformRecord` fails with
a per-row transform error. -/
theorem C9_whitespace_lga_errors :
    isTransformError (transformRecord db0 2024 false ["Lga"] [" "]) = true ∧
    trimStr " " = "" ∧
    transformInt " " = Except.error "invalid syntax" := by
  decide

/-- C9 amended: `transformRecord` is bounds-safe — a successful run yields
exactly one value per mapping (38 of them), and every mapping whose source
column is absent from the headers or resolves to an index at or beyond the
record's length yields null (the `year` destination yielding the configured
year).  Empty cells, however, are handed to the field transforms unchecked:
only transforms with their own empty-string guard yield null, while
`transformString` yields the empty string and a whitespace-only Lga cell is
a transform error. -/
theorem C9_transformRecord_bounds :
    (∀ (db : Db) (year : Int) (adm : Bool) (headers record : List String)
        (vals : List Val),
        transformRecord db year adm headers record = Except.ok vals →
        vals.length = 38) ∧
    (∀ (db : Db) (year : Int) (adm : Bool),
        (defaultColumnMappings db year adm).map (fun m => (m.1, m.2.1)) = mappingNames) ∧
    (∀ (db : Db) (year : Int) (adm : Bool) (headers record : List String)
        (vals : List Val) (j : Nat),
        transformRecord db year adm headers record = Except.ok vals →
        j < 38 →
        colMissingOrOOB headers record
          (((defaultColumnMappings db year adm).getD j dMap).1) = true →
        vals.getD j VNull =
          (if ((defaultColumnMappings db year adm).getD j dMap).2.1 = "year"
           then VInt year else VNull)) ∧
    (∀ s : String, transformString s = Except.ok (VStr (trimStr s))) := by
  refine ⟨?_, ?_, ?_, fun s => rfl⟩
  · intro db year adm headers record vals h
    exact transformRecordGo_length year headers record _ vals h
  · intro db year adm
    rfl
  · intro db year adm headers record vals j h hj hmiss
    refine transformRecordGo_missing year headers record _ vals j h ?_ hmiss
    show j < (defaultColumnMappings db year adm).length
    simp [defaultColumnMappings]
    omega

/-- C9 witness: a header list containing only "Lga" with an empty record —
the mapped index 0 lies beyond the record, so the `lg_id` slot (index 35) is
null, the `year` slot (index 36) carries the configured year, and the run
yields 38 values. -/
theorem C9_witness :
    (∀ vals : List Val,
        transformRecord db0 2024 false ["Lga"] [] = Except.ok vals →
        vals.getD 35 VNull = VNull) ∧
    (∀ vals : List Val,
        transformRecord db0 2024 false ["Lga"] [] = Except.ok vals →
        vals.getD 36 VNull = VInt 2024) ∧
    (∀ vals : List Val,
        transformRecord db0 2024 false ["Lga"] [] = Except.ok vals →
        vals.length = 38) := by
  refine ⟨?_, ?_, ?_⟩
  · intro vals h
    have := C9_transformRecord_bounds.2.2.1 db0 2024 false ["Lga"] [] vals 35 h
      (by omega) (by decide)
    simpa using this
  · intro vals h
    have := C9_transformRecord_bounds.2.2.1 db0 2024 false ["Lga"] [] vals 36 h
      (by omega) (by decide)
    simpa using this
  · intro vals h
    exact C9_transformRecord_bounds.1 db0 2024 false ["Lga"] [] vals h

/-! ### C5 — analyzer chunk partition -/

theorem sliceL_glue {α : Type} (l : List α) (a b c : Nat) (hab : a ≤ b) (hbc : b ≤ c) :
    sliceL l a b ++ sliceL l b c = sliceL l a c := by
  simp only [sliceL, List.drop_take]
  have hd : l.drop b = (l.drop a).drop (b - a) := by
    rw [List.drop_drop]
    congr 1
    omega
  rw [hd]
  rw [show c - a = (b - a) + (c - b) from by omega, List.take_add]

theorem sliceL_self {α : Type} (l : List α) (a : Nat) : sliceL l a a = [] := by
  apply List.drop_eq_nil_of_le
  simp

theorem chunksGo_join {α : Type} (rpw : Nat) (l : List α) :
    ∀ (k i : Nat),
      (chunksGo rpw l i k).flatten =
        sliceL l (min (i * rpw) l.length) (min ((i + k) * rpw) l.length) := by
  intro k
  induction k with
  | zero =>
      intro i
      simp [chunksGo, sliceL_self]
  | succ k ih =>
      intro i
      by_cases hbr : l.length ≤ i * rpw
      · have h1 : min (i * rpw) l.length = l.length := min_eq_right hbr
        have h2 : min ((i + (k + 1)) * rpw) l.length = l.length := by
          refine min_eq_right (le_trans hbr ?_)
          exact Nat.mul_le_mul_right _ (by omega)
        simp [chunksGo, hbr, h1, h2, sliceL_self]
      · have hlt : i * rpw < l.length := lt_of_not_le hbr
        have h1 : min (i * rpw) l.length = i * rpw := min_eq_left (le_of_lt hlt)
        have hik : i + 1 + k = i + (k + 1) := by omega
        have hmul : i * rpw + rpw = (i + 1) * rpw := by
          rw [Nat.succ_mul]
        simp only [chunksGo, if_neg hbr, List.flatten_cons, ih (i + 1), hik, h1, hmul]
        apply sliceL_glue
        · refine le_min ?_ (le_of_lt hlt)
          exact Nat.mul_le_mul_right _ (by omega)
        · refine min_le_min ?_ le_rfl
          exact Nat.mul_le_mul_right _ (by omega)

theorem chunksGo_length_le {α : Type} (rpw : Nat) (l : List α) :
    ∀ (k i : Nat), (chunksGo rpw l i k).length ≤ k := by
  intro k
  induction k with
  | zero => intro i; simp [chunksGo]
  | succ k ih =>
      intro i
      by_cases hbr : l.length ≤ i * rpw
      · simp [chunksGo, hbr]
      · simp only [chunksGo, if_neg hbr, List.length_cons]
        exact Nat.succ_le_succ (ih (i + 1))

theorem ceil_mul_ge (n w : Nat) (hw : 1 ≤ w) : n ≤ w * ((n + w - 1) / w) := by
  have h1 := Nat.div_add_mod (n + w - 1) w
  have h2 : (n + w - 1) % w < w := Nat.mod_lt _ (by omega)
  omega

theorem analyzerChunks_flatten {α : Type} (w : Nat) (l : List α) (hw : 1 ≤ w) :
    (analyzerChunks w l).flatten = l := by
  rw [analyzerChunks, chunksGo_join]
  have hceil : l.length ≤ w * ((l.length + w - 1) / w) := ceil_mul_ge l.length w hw
  simp only [Nat.zero_mul, Nat.zero_add, Nat.min_eq_left (Nat.zero_le _),
    min_eq_right hceil, sliceL, List.drop_zero, List.take_length]

/-- C5: for every worker count from 1 up, the analyzer's contiguous chunks
reassemble exactly to the input rows (no row dropped or double-counted),
at most `workerCount` chunks are created, and the chunk results' processed
row counts sum to the total input row count — including when the row count
is not divisible by, or smaller than, the worker count. -/
theorem C5_analyzer_partition :
    ∀ (db : Db) (year : Int) (adm : Bool) (headers : List String) (w : Nat)
      (records : List (List String)), 1 ≤ w →
      (analyzerChunks w records).flatten = records ∧
      (analyzerChunks w records).length ≤ w ∧
      ((analyzerChunks w records).map
          (fun c => (processChunk db year adm headers c).processedRows)).sum =
        records.length := by
  intro db year adm headers w records hw
  have hfl := analyzerChunks_flatten w records hw
  refine ⟨hfl, chunksGo_length_le _ _ w 0, ?_⟩
  have hmap : (analyzerChunks w records).map
      (fun c => (processChunk db year adm headers c).processedRows) =
      (analyzerChunks w records).map List.length := by
    refine List.map_congr_left ?_
    intro c _
    have h := (processChunk_foldl db year adm headers c ⟨0, []⟩).1
    simpa [processChunk] using h
  rw [hmap, ← List.length_flatten, hfl]

/-- C5 witness: 5 rows over 3 workers split into chunks of 2, 2 and 1. -/
theorem C5_witness :
    (analyzerChunks 3 [["a"], ["b"], ["c"], ["d"], ["e"]]).flatten =
      [["a"], ["b"], ["c"], ["d"], ["e"]] ∧
    (analyzerChunks 3 [["a"], ["b"], ["c"], ["d"], ["e"]]).length ≤ 3 ∧
    ((analyzerChunks 3 [["a"], ["b"], ["c"], ["d"], ["e"]]).map
        (fun c => (processChunk db0 2024 false [] c).processedRows)).sum =
      ([["a"], ["b"], ["c"], ["d"], ["e"]] : List (List String)).length :=
  C5_analyzer_partition db0 2024 false [] 3 [["a"], ["b"], ["c"], ["d"], ["e"]]
    (by decide)

/-! ### C1 — upsert conflict policy and idempotence -/

theorem updRow_length (u : Val → Val → Val) (cols : List String) (s v : List Val) :
    (updRow u cols s v).length = cols.length := by
  simp [updRow]

theorem insRow_length (cols : List String) (v : List Val) :
    (insRow cols v).length = cols.length := by
  simp [insRow]

theorem updRow_getD (u : Val → Val → Val) (cols : List String) (s v : List Val)
    (i : Nat) (h : i < cols.length) :
    (updRow u cols s v).getD i VNull =
      if cols.getD i "" = "regnumber" then s.getD i VNull
      else u (s.getD i VNull) (v.getD i VNull) := by
  have hlen : i < (updRow u cols s v).length := by
    rw [updRow_length]; exact h
  rw [List.getD_eq_getElem _ _ hlen]
  simp [updRow]

theorem insRow_getD (cols : List String) (v : List Val) (i : Nat)
    (h : i < cols.length) :
    (insRow cols v).getD i VNull = v.getD i VNull := by
  have hlen : i < (insRow cols v).length := by
    rw [insRow_length]; exact h
  rw [List.getD_eq_getElem _ _ hlen]
  simp [insRow]

theorem rfold_length (u : Val → Val → Val) (cols : List String) :
    ∀ (l : List (List Val)) (s : List Val), l ≠ [] →
      (l.foldl (updRow u cols) s).length = cols.length := by
  intro l
  induction l with
  | nil => intro s h; cases h rfl
  | cons r rest ih =>
      intro s _
      cases hr : rest with
      | nil => simp [updRow_length]
      | cons b bs =>
          rw [List.foldl_cons]
          exact hr ▸ ih (updRow u cols s r) (by simp [hr])

theorem rfold_getD (u : Val → Val → Val) (cols : List String) :
    ∀ (l : List (List Val)) (s : List Val) (i : Nat), i < cols.length →
      (l.foldl (updRow u cols) s).getD i VNull =
        if cols.getD i "" = "regnumber" then s.getD i VNull
        else (l.map (fun r => r.getD i VNull)).foldl u (s.getD i VNull) := by
  intro l
  induction l with
  | nil =>
      intro s i h
      simp only [List.foldl_nil, List.map_nil]
      split <;> rfl
  | cons r rest ih =>
      intro s i h
      simp only [List.foldl_cons, List.map_cons]
      rw [ih (updRow u cols s r) i h, updRow_getD u cols s r i h]
      by_cases hreg : cols.getD i "" = "regnumber"
      · simp only [if_pos hreg]
      · simp only [if_neg hreg]

theorem sFold_char (P : Val → Bool) :
    ∀ (l : List Val) (a : Val), l.foldl (selUpd P) a = (lastSel P l).getD a := by
  intro l
  induction l with
  | nil => intro a; rfl
  | cons v vs ih =>
      intro a
      simp only [List.foldl_cons, ih]
      cases hls : lastSel P vs with
      | some w => simp [lastSel, hls]
      | none =>
          simp only [lastSel, hls]
          by_cases hp : P v
          · simp [selUpd, hp]
          · simp [selUpd, hp]

theorem selUpd_absorb (P : Val → Bool) (x v : Val) :
    selUpd P (selUpd P x v) v = selUpd P x v := by
  by_cases hp : P v <;> simp [selUpd, hp]

theorem sFold_stutter (P : Val → Bool) (l : List Val) (x v : Val) :
    l.foldl (selUpd P) (selUpd P (l.foldl (selUpd P) (selUpd P x v)) v) =
      l.foldl (selUpd P) (selUpd P x v) := by
  simp only [sFold_char]
  cases hls : lastSel P l with
  | some w => simp
  | none => simp [selUpd_absorb]

theorem rfold_absorb (P : Val → Bool) (cols : List String)
    (l : List (List Val)) (a0 r : List Val)
    (hlen : a0.length = cols.length)
    (hsel : ∀ i, i < cols.length → cols.getD i "" ≠ "regnumber" →
        ∃ x, a0.getD i VNull = selUpd P x (r.getD i VNull)) :
    l.foldl (updRow (selUpd P) cols)
        (updRow (selUpd P) cols (l.foldl (updRow (selUpd P) cols) a0) r) =
      l.foldl (updRow (selUpd P) cols) a0 := by
  have hL1 : (l.foldl (updRow (selUpd P) cols) a0).length = cols.length := by
    cases hl : l with
    | nil => simpa using hlen
    | cons b bs => exact hl ▸ rfold_length _ cols l a0 (by simp [hl])
  have hL2 : (l.foldl (updRow (selUpd P) cols)
      (updRow (selUpd P) cols (l.foldl (updRow (selUpd P) cols) a0) r)).length =
      cols.length := by
    cases hl : l with
    | nil => simpa using updRow_length (selUpd P) cols _ r
    | cons b bs =>
        exact hl ▸ rfold_length _ cols l
          (updRow (selUpd P) cols (l.foldl (updRow (selUpd P) cols) a0) r) (by simp [hl])
  apply List.ext_getElem (by rw [hL2, hL1])
  intro n h1 h2
  have hn : n < cols.length := by rw [hL2] at h1; exact h1
  rw [← List.getD_eq_getElem _ VNull h1, ← List.getD_eq_getElem _ VNull h2]
  rw [rfold_getD (selUpd P) cols l _ n hn, rfold_getD (selUpd P) cols l a0 n hn]
  by_cases hreg : cols.getD n "" = "regnumber"
  · rw [if_pos hreg, if_pos hreg]
    rw [updRow_getD (selUpd P) cols _ r n hn, if_pos hreg]
    rw [rfold_getD (selUpd P) cols l a0 n hn, if_pos hreg]
  · rw [if_neg hreg, if_neg hreg]
    rw [updRow_getD (selUpd P) cols _ r n hn, if_neg hreg]
    rw [rfold_getD (selUpd P) cols l a0 n hn, if_neg hreg]
    obtain ⟨x, hx⟩ := hsel n hn hreg
    rw [hx]
    exact sFold_stutter P _ x (r.getD n VNull)

theorem runK_some (P : Val → Bool) (cols : List String) :
    ∀ (l : List (List Val)) (s : List Val),
      runK P cols (some s) l = some (l.foldl (updRow (selUpd P) cols) s) := by
  intro l
  induction l with
  | nil => intro s; rfl
  | cons r rest ih =>
      intro s
      simp only [runK, List.foldl_cons] at ih ⊢
      rw [show gStep P cols (some s) r = some (updRow (selUpd P) cols s r) from rfl]
      exact ih (updRow (selUpd P) cols s r)

theorem runK_stutter (P : Val → Bool) (cols : List String) :
    ∀ (l : List (List Val)) (o : Option (List Val)),
      runK P cols (runK P cols o l) l = runK P cols o l := by
  intro l o
  cases l with
  | nil => rfl
  | cons r rest =>
      have hstep : runK P cols o (r :: rest) = runK P cols (gStep P cols o r) rest := by
        simp [runK]
      cases ho : gStep P cols o r with
      | none => simp [gStep] at ho
      | some a0 =>
          have ha0len : a0.length = cols.length := by
            simp only [gStep] at ho
            cases o with
            | none =>
                cases ho
                exact insRow_length cols r
            | some s =>
                cases ho
                exact updRow_length (selUpd P) cols s r
          have hsel : ∀ i, i < cols.length → cols.getD i "" ≠ "regnumber" →
              ∃ x, a0.getD i VNull = selUpd P x (r.getD i VNull) := by
            intro i hi hreg
            simp only [gStep] at ho
            cases o with
            | none =>
                cases ho
                refine ⟨r.getD i VNull, ?_⟩
                rw [insRow_getD cols r i hi]
                by_cases hp : P (r.getD i VNull) <;> simp [selUpd, hp]
            | some s =>
                cases ho
                refine ⟨s.getD i VNull, ?_⟩
                rw [updRow_getD (selUpd P) cols s r i hi, if_neg hreg]
          rw [hstep, ho, runK_some]
          have hlast : runK P cols
              (some (rest.foldl (updRow (selUpd P) cols) a0)) (r :: rest) =
              some (rest.foldl (updRow (selUpd P) cols)
                (updRow (selUpd P) cols (rest.foldl (updRow (selUpd P) cols) a0) r)) := by
            have : gStep P cols (some (rest.foldl (updRow (selUpd P) cols) a0)) r =
                some (updRow (selUpd P) cols
                  (rest.foldl (updRow (selUpd P) cols) a0) r) := rfl
            simp only [runK, List.foldl_cons, this]
            exact runK_some P cols rest _
          rw [hlast]
          rw [rfold_absorb P cols rest a0 r ha0len hsel]

theorem importRows_apply (P : Val → Bool) (cols : List String) :
    ∀ (rows : List (List Val)) (t : CandTable) (k : Val),
      importRows (selUpd P) cols t rows k =
        runK P cols (t k) (rows.filter (fun r => decide (rowKey cols r = k))) := by
  intro rows
  induction rows with
  | nil => intro t k; rfl
  | cons r rest ih =>
      intro t k
      simp only [importRows, List.foldl_cons, List.filter_cons]
      by_cases hk : rowKey cols r = k
      · rw [if_pos (by simp [hk])]
        have h1 : upsertRow (selUpd P) cols t r k = gStep P cols (t k) r := by
          simp [upsertRow, gStep, hk]
        have := ih (upsertRow (selUpd P) cols t r) k
        simp only [importRows] at this
        rw [this, h1]
        simp [runK]
      · rw [if_neg (by simp [hk])]
        have h1 : upsertRow (selUpd P) cols t r k = t k := by
          simp [upsertRow]
          intro hkk
          exact absurd hkk.symm hk
        have := ih (upsertRow (selUpd P) cols t r) k
        simp only [importRows] at this
        rw [this, h1]

theorem coalMerge_eq_selUpd :
    coalMerge = selUpd (fun v => !isEmptyV v) := by
  funext s v
  cases v with
  | VNull => simp [coalMerge, nullifEmptyStr, coalesceV, isEmptyV, selUpd]
  | VStr t =>
      by_cases ht : t = ""
      · simp [coalMerge, nullifEmptyStr, coalesceV, isEmptyV, selUpd, ht]
      · simp [coalMerge, nullifEmptyStr, coalesceV, isEmptyV, selUpd, ht]
  | VInt n => simp [coalMerge, nullifEmptyStr, coalesceV, isEmptyV, selUpd]
  | VBool b => simp [coalMerge, nullifEmptyStr, coalesceV, isEmptyV, selUpd]

theorem overwriteField_eq_selUpd :
    overwriteField = selUpd (fun _ => true) := by
  funext s v
  simp [overwriteField, selUpd]

/-- C1 counterexample: under the second revision's `buildUpdateClause`
upsert, an incoming row with the same regnumber and an empty (null)
maritalstatus overwrites the stored value "X" with null, so the
field-by-field coalesce merge the claim describes does not hold of that
loader; re-importing a sparser row does null out a previously set field. -/
theorem C1_overwrite_nulls_field :
    (updRow overwriteField candidateColumns
        (insRow candidateColumns [VStr "R1", VStr "X"])
        (insRow candidateColumns [VStr "R1"])).getD 1 VNull = VNull ∧
    (insRow candidateColumns [VStr "R1", VStr "X"]).getD 1 VNull = VStr "X" ∧
    isEmptyV ((insRow candidateColumns [VStr "R1"]).getD 1 VNull) = true := by
  decide

/-- C1 amended: the COALESCE-based statement of the first revision merges
field-by-field, keeping the stored value exactly when the incoming one is
null or the empty string; both statements never overwrite the `regnumber`
primary key; and for both conflict policies, executing the same row list
twice leaves every key's stored row (hence every field value and the row
count) unchanged. -/
theorem C1_upsert_merge_idempotent :
    (∀ stored incoming : Val,
        coalMerge stored incoming =
          if isEmptyV incoming then stored else incoming) ∧
    (∀ (u : Val → Val → Val) (stored incoming : List Val),
        (updRow u candidateColumns stored incoming).getD 0 VNull =
          stored.getD 0 VNull) ∧
    (∀ (cols : List String) (t : CandTable) (rows : List (List Val)) (k : Val),
        importRows coalMerge cols (importRows coalMerge cols t rows) rows k =
          importRows coalMerge cols t rows k) ∧
    (∀ (cols : List String) (t : CandTable) (rows : List (List Val)) (k : Val),
        importRows overwriteField cols (importRows overwriteField cols t rows) rows k =
          importRows overwriteField cols t rows k) := by
  refine ⟨?_, ?_, ?_, ?_⟩
  · intro stored incoming
    rw [coalMerge_eq_selUpd]
    by_cases h : isEmptyV incoming <;> simp [selUpd, h]
  · intro u stored incoming
    rw [updRow_getD u candidateColumns stored incoming 0 (by decide),
      if_pos (by decide)]
  · intro cols t rows k
    rw [coalMerge_eq_selUpd]
    simp only [importRows_apply]
    exact runK_stutter _ cols _ _
  · intro cols t rows k
    rw [overwriteField_eq_selUpd]
    simp only [importRows_apply]
    exact runK_stutter _ cols _ _



/-! ### C2 — batch commits and cancellation -/

theorem v1Go_eq_cancel (cancelAt bs : Nat) (rem batch : List Nat) (st : V1St)
    (h : cancelAt ≤ st.clock) :
    v1Go cancelAt bs rem batch st =
      (⟨st.clock + 1, st.committed, st.commits⟩, V1Outcome.cancelled) := by
  rw [v1Go, if_pos h]

theorem v1Go_eq_nil_empty (cancelAt bs : Nat) (batch : List Nat) (st : V1St)
    (h : ¬ cancelAt ≤ st.clock) (hbe : batch.isEmpty = true) :
    v1Go cancelAt bs [] batch st =
      (⟨st.clock + 1, st.committed, st.commits⟩, V1Outcome.completed) := by
  rw [v1Go, if_neg h]
  dsimp only
  rw [if_pos hbe]

theorem v1Go_eq_nil_flush_fail (cancelAt bs : Nat) (batch : List Nat) (st : V1St)
    (h : ¬ cancelAt ≤ st.clock) (hbe : batch.isEmpty = false)
    (hcm : cancelAt ≤
      (execBatch cancelAt batch ⟨st.clock + 1, st.committed, st.commits⟩).2.clock) :
    v1Go cancelAt bs [] batch st =
      ((execBatch cancelAt batch ⟨st.clock + 1, st.committed, st.commits⟩).2,
       V1Outcome.commitFailed) := by
  rw [v1Go, if_neg h]
  dsimp only
  rw [hbe]
  rw [if_neg Bool.false_ne_true]
  rw [if_pos hcm]

theorem v1Go_eq_nil_flush_ok (cancelAt bs : Nat) (batch : List Nat) (st : V1St)
    (h : ¬ cancelAt ≤ st.clock) (hbe : batch.isEmpty = false)
    (hcm : ¬ cancelAt ≤
      (execBatch cancelAt batch ⟨st.clock + 1, st.committed, st.commits⟩).2.clock) :
    v1Go cancelAt bs [] batch st =
      (⟨(execBatch cancelAt batch ⟨st.clock + 1, st.committed, st.commits⟩).2.clock,
        (execBatch cancelAt batch ⟨st.clock + 1, st.committed, st.commits⟩).2.committed ++
          (execBatch cancelAt batch ⟨st.clock + 1, st.committed, st.commits⟩).1,
        (execBatch cancelAt batch ⟨st.clock + 1, st.committed, st.commits⟩).2.commits + 1⟩,
       V1Outcome.completed) := by
  rw [v1Go, if_neg h]
  dsimp only
  rw [hbe]
  rw [if_neg Bool.false_ne_true]
  rw [if_neg hcm]

theorem v1Go_eq_cons_full_fail (cancelAt bs : Nat) (r : Nat) (rest batch : List Nat)
    (st : V1St) (h : ¬ cancelAt ≤ st.clock)
    (hfull : bs ≤ (batch ++ [r]).length)
    (hcm : cancelAt ≤
      (execBatch cancelAt (batch ++ [r]) ⟨st.clock + 1, st.committed, st.commits⟩).2.clock) :
    v1Go cancelAt bs (r :: rest) batch st =
      ((execBatch cancelAt (batch ++ [r]) ⟨st.clock + 1, st.committed, st.commits⟩).2,
       V1Outcome.commitFailed) := by
  rw [v1Go, if_neg h]
  dsimp only
  rw [if_pos hfull]
  rw [if_pos hcm]

theorem v1Go_eq_cons_full_ok (cancelAt bs : Nat) (r : Nat) (rest batch : List Nat)
    (st : V1St) (h : ¬ cancelAt ≤ st.clock)
    (hfull : bs ≤ (batch ++ [r]).length)
    (hcm : ¬ cancelAt ≤
      (execBatch cancelAt (batch ++ [r]) ⟨st.clock + 1, st.committed, st.commits⟩).2.clock) :
    v1Go cancelAt bs (r :: rest) batch st =
      v1Go cancelAt bs rest []
        ⟨(execBatch cancelAt (batch ++ [r])
            ⟨st.clock + 1, st.committed, st.commits⟩).2.clock,
         (execBatch cancelAt (batch ++ [r])
            ⟨st.clock + 1, st.committed, st.commits⟩).2.committed ++
           (execBatch cancelAt (batch ++ [r])
              ⟨st.clock + 1, st.committed, st.commits⟩).1,
         (execBatch cancelAt (batch ++ [r])
            ⟨st.clock + 1, st.committed, st.commits⟩).2.commits + 1⟩ := by
  rw [v1Go, if_neg h]
  dsimp only
  rw [if_pos hfull]
  rw [if_neg hcm]

theorem v1Go_eq_cons_part (cancelAt bs : Nat) (r : Nat) (rest batch : List Nat)
    (st : V1St) (h : ¬ cancelAt ≤ st.clock)
    (hfull : ¬ bs ≤ (batch ++ [r]).length) :
    v1Go cancelAt bs (r :: rest) batch st =
      v1Go cancelAt bs rest (batch ++ [r]) ⟨st.clock + 1, st.committed, st.commits⟩ := by
  rw [v1Go, if_neg h]
  dsimp only
  rw [if_neg hfull]

theorem execBatch_complete (cancelAt : Nat) :
    ∀ (b : List Nat) (st : V1St), st.clock + b.length ≤ cancelAt →
      execBatch cancelAt b st = (b, ⟨st.clock + b.length, st.committed, st.commits⟩) := by
  intro b
  induction b with
  | nil =>
      intro st h
      simp [execBatch]
  | cons r rest ih =>
      intro st h
      have hnc : ¬ cancelAt ≤ st.clock := by
        simp only [List.length_cons] at h
        omega
      simp only [execBatch, if_neg hnc]
      rw [ih ⟨st.clock + 1, st.committed, st.commits⟩
        (by simp only [List.length_cons] at h ⊢; omega)]
      simp only [List.length_cons, Prod.mk.injEq, V1St.mk.injEq, true_and, and_true]
      omega

theorem execBatch_committed (cancelAt : Nat) :
    ∀ (b : List Nat) (st : V1St),
      (execBatch cancelAt b st).2.committed = st.committed ∧
      (execBatch cancelAt b st).2.commits = st.commits := by
  intro b
  induction b with
  | nil => intro st; exact ⟨rfl, rfl⟩
  | cons r rest ih =>
      intro st
      by_cases hc : cancelAt ≤ st.clock
      · simp [execBatch, hc]
      · simpa [execBatch, hc] using ih ⟨st.clock + 1, st.committed, st.commits⟩

theorem execBatch_take (cancelAt : Nat) :
    ∀ (b : List Nat) (st : V1St),
      ∃ j, j ≤ b.length ∧ (execBatch cancelAt b st).1 = b.take j ∧
        (j = b.length ∨ cancelAt ≤ (execBatch cancelAt b st).2.clock) := by
  intro b
  induction b with
  | nil =>
      intro st
      exact ⟨0, by simp, by simp [execBatch], Or.inl rfl⟩
  | cons r rest ih =>
      intro st
      by_cases hc : cancelAt ≤ st.clock
      · refine ⟨0, by simp, by simp [execBatch, hc], Or.inr ?_⟩
        simp only [execBatch, if_pos hc]
        omega
      · obtain ⟨j, hj, hrows, hd⟩ := ih ⟨st.clock + 1, st.committed, st.commits⟩
        refine ⟨j + 1, by simpa using Nat.succ_le_succ hj, ?_, ?_⟩
        · simp only [execBatch, if_neg hc, List.take_succ_cons]
          rw [hrows]
        · cases hd with
          | inl h => exact Or.inl (by simp [h])
          | inr h =>
              refine Or.inr ?_
              simpa [execBatch, if_neg hc] using h

theorem execBatch_full (cancelAt : Nat) (b : List Nat) (st : V1St)
    (h : ¬ cancelAt ≤ (execBatch cancelAt b st).2.clock) :
    (execBatch cancelAt b st).1 = b := by
  obtain ⟨j, hj, hrows, hd⟩ := execBatch_take cancelAt b st
  cases hd with
  | inl hlen => rw [hrows, hlen, List.take_length]
  | inr hclk => exact absurd hclk h

theorem v1StPairCongr (a a' c c' : Nat) (b b' : List Nat) (d : V1Outcome)
    (h1 : a = a') (h2 : b = b') (h3 : c = c') :
    ((⟨a, b, c⟩ : V1St), d) = ((⟨a', b', c'⟩ : V1St), d) := by
  rw [h1, h2, h3]

theorem v1Go_complete (cancelAt bs : Nat) (hbs : 1 ≤ bs) :
    ∀ (rem batch : List Nat) (st : V1St), batch.length < bs →
      st.clock + 2 * rem.length + batch.length + 2 ≤ cancelAt →
      v1Go cancelAt bs rem batch st =
        (⟨st.clock + 2 * rem.length + batch.length + 1,
          st.committed ++ batch ++ rem,
          st.commits + (batch.length + rem.length + bs - 1) / bs⟩,
         V1Outcome.completed) := by
  intro rem
  induction rem with
  | nil =>
      intro batch st hb hC
      have hnc : ¬ cancelAt ≤ st.clock := by
        simp only [List.length_nil] at hC
        omega
      cases hbatch : batch with
      | nil =>
          subst hbatch
          rw [v1Go_eq_nil_empty cancelAt bs [] st hnc (by simp)]
          apply v1StPairCongr
          · simp only [List.length_nil]
          · simp
          · have hdiv : (([] : List Nat).length + ([] : List Nat).length + bs - 1) / bs = 0 :=
              Nat.div_eq_of_lt (by simp only [List.length_nil]; omega)
            rw [hdiv]
            omega
      | cons x xs =>
          subst hbatch
          have hE := execBatch_complete cancelAt (x :: xs)
            ⟨st.clock + 1, st.committed, st.commits⟩
            (by simp only [List.length_nil, List.length_cons] at hC ⊢; omega)
          have hcm : ¬ cancelAt ≤
              (execBatch cancelAt (x :: xs)
                ⟨st.clock + 1, st.committed, st.commits⟩).2.clock := by
            rw [hE]
            show ¬ cancelAt ≤ st.clock + 1 + (x :: xs).length
            simp only [List.length_nil, List.length_cons] at hC ⊢
            omega
          rw [v1Go_eq_nil_flush_ok cancelAt bs (x :: xs) st hnc (by simp) hcm]
          rw [hE]
          apply v1StPairCongr
          · simp only [List.length_nil, List.length_cons]
            omega
          · simp
          · have hdiv : ((x :: xs).length + ([] : List Nat).length + bs - 1) / bs = 1 := by
              apply Nat.div_eq_of_lt_le
              · simp only [List.length_nil, List.length_cons] at hC hb ⊢
                omega
              · simp only [List.length_nil, List.length_cons] at hC hb ⊢
                omega
            rw [hdiv]
  | cons r rest ih =>
      intro batch st hb hC
      have hnc : ¬ cancelAt ≤ st.clock := by
        simp only [List.length_cons] at hC
        omega
      by_cases hfull : bs ≤ (batch ++ [r]).length
      · have hb' : batch.length + 1 = bs := by
          simp only [List.length_append, List.length_cons, List.length_nil] at hfull
          omega
        have hE := execBatch_complete cancelAt (batch ++ [r])
          ⟨st.clock + 1, st.committed, st.commits⟩
          (by simp only [List.length_append, List.length_cons, List.length_nil,
                List.length_cons] at hC ⊢
              omega)
        have hcm : ¬ cancelAt ≤
            (execBatch cancelAt (batch ++ [r])
              ⟨st.clock + 1, st.committed, st.commits⟩).2.clock := by
          rw [hE]
          show ¬ cancelAt ≤ st.clock + 1 + (batch ++ [r]).length
          simp only [List.length_append, List.length_cons, List.length_nil,
            List.length_cons] at hC ⊢
          omega
        rw [v1Go_eq_cons_full_ok cancelAt bs r rest batch st hnc hfull hcm]
        rw [hE]
        rw [ih [] ⟨st.clock + 1 + (batch ++ [r]).length,
            st.committed ++ (batch ++ [r]), st.commits + 1⟩
          (by simp only [List.length_nil]; omega)
          (by simp only [List.length_nil, List.length_append, List.length_cons,
                List.length_cons] at hC ⊢
              omega)]
        apply v1StPairCongr
        · simp only [List.length_nil, List.length_append, List.length_cons]
          omega
        · simp [List.append_assoc]
        · simp only [List.length_nil, List.length_append, List.length_cons]
          have hnum1 : 0 + rest.length + bs - 1 = rest.length + bs - 1 := by omega
          have hnum2 : batch.length + (rest.length + 1) + bs - 1 =
              rest.length + bs - 1 + bs := by omega
          rw [hnum1, hnum2, Nat.add_div_right _ (by omega)]
          omega
      · rw [v1Go_eq_cons_part cancelAt bs r rest batch st hnc hfull]
        rw [ih (batch ++ [r]) ⟨st.clock + 1, st.committed, st.commits⟩
          (by simp only [List.length_append, List.length_cons, List.length_nil] at hfull ⊢
              omega)
          (by simp only [List.length_append, List.length_cons, List.length_nil,
                List.length_cons] at hC ⊢
              omega)]
        apply v1StPairCongr
        · simp only [List.length_append, List.length_cons, List.length_nil]
          omega
        · simp [List.append_assoc]
        · simp only [List.length_append, List.length_cons, List.length_nil]
          have hnum : batch.length + 1 + rest.length + bs - 1 =
              batch.length + (rest.length + 1) + bs - 1 := by omega
          rw [hnum]

theorem v1Go_abort_batches (cancelAt bs : Nat) (hbs : 1 ≤ bs) :
    ∀ (rem batch : List Nat) (st : V1St), batch.length < bs →
      (v1Go cancelAt bs rem batch st).2 ≠ V1Outcome.completed →
      ∃ k, (v1Go cancelAt bs rem batch st).1.committed =
          st.committed ++ (batch ++ rem).take (k * bs) ∧
        (v1Go cancelAt bs rem batch st).1.commits = st.commits + k := by
  intro rem
  induction rem with
  | nil =>
      intro batch st hb habort
      by_cases hc : cancelAt ≤ st.clock
      · refine ⟨0, ?_, ?_⟩
        · rw [v1Go_eq_cancel cancelAt bs [] batch st hc]
          simp
        · rw [v1Go_eq_cancel cancelAt bs [] batch st hc]
          simp
      · cases hbe : batch.isEmpty with
        | true =>
            rw [v1Go_eq_nil_empty cancelAt bs batch st hc hbe] at habort
            simp at habort
        | false =>
            by_cases hcm : cancelAt ≤
                (execBatch cancelAt batch ⟨st.clock + 1, st.committed, st.commits⟩).2.clock
            · have hcomm :=
                execBatch_committed cancelAt batch ⟨st.clock + 1, st.committed, st.commits⟩
              refine ⟨0, ?_, ?_⟩
              · rw [v1Go_eq_nil_flush_fail cancelAt bs batch st hc hbe hcm]
                simp [hcomm.1]
              · rw [v1Go_eq_nil_flush_fail cancelAt bs batch st hc hbe hcm]
                simpa using hcomm.2
            · rw [v1Go_eq_nil_flush_ok cancelAt bs batch st hc hbe hcm] at habort
              simp at habort
  | cons r rest ih =>
      intro batch st hb habort
      by_cases hc : cancelAt ≤ st.clock
      · refine ⟨0, ?_, ?_⟩
        · rw [v1Go_eq_cancel cancelAt bs (r :: rest) batch st hc]
          simp
        · rw [v1Go_eq_cancel cancelAt bs (r :: rest) batch st hc]
          simp
      · by_cases hfull : bs ≤ (batch ++ [r]).length
        · by_cases hcm : cancelAt ≤
              (execBatch cancelAt (batch ++ [r])
                ⟨st.clock + 1, st.committed, st.commits⟩).2.clock
          · have hcomm := execBatch_committed cancelAt (batch ++ [r])
              ⟨st.clock + 1, st.committed, st.commits⟩
            refine ⟨0, ?_, ?_⟩
            · rw [v1Go_eq_cons_full_fail cancelAt bs r rest batch st hc hfull hcm]
              simp [hcomm.1]
            · rw [v1Go_eq_cons_full_fail cancelAt bs r rest batch st hc hfull hcm]
              simpa using hcomm.2
          · have hcomm := execBatch_committed cancelAt (batch ++ [r])
              ⟨st.clock + 1, st.committed, st.commits⟩
            have hfullexec :
                (execBatch cancelAt (batch ++ [r])
                  ⟨st.clock + 1, st.committed, st.commits⟩).1 = batch ++ [r] :=
              execBatch_full cancelAt (batch ++ [r]) _ hcm
            have hblen : (batch ++ [r]).length = bs := by
              simp only [List.length_append, List.length_cons, List.length_nil] at hfull ⊢
              omega
            rw [v1Go_eq_cons_full_ok cancelAt bs r rest batch st hc hfull hcm] at habort ⊢
            obtain ⟨k, hk1, hk2⟩ := ih []
              ⟨(execBatch cancelAt (batch ++ [r])
                  ⟨st.clock + 1, st.committed, st.commits⟩).2.clock,
               (execBatch cancelAt (batch ++ [r])
                  ⟨st.clock + 1, st.committed, st.commits⟩).2.committed ++
                 (execBatch cancelAt (batch ++ [r])
                    ⟨st.clock + 1, st.committed, st.commits⟩).1,
               (execBatch cancelAt (batch ++ [r])
                  ⟨st.clock + 1, st.committed, st.commits⟩).2.commits + 1⟩
              (by simpa using hbs) habort
            refine ⟨k + 1, ?_, ?_⟩
            · rw [hk1]
              simp only [hcomm.1, hfullexec, List.nil_append]
              have hsplit : batch ++ r :: rest = (batch ++ [r]) ++ rest := by simp
              rw [hsplit]
              have hnum : (k + 1) * bs = (batch ++ [r]).length + k * bs := by
                rw [hblen, Nat.succ_mul, Nat.add_comm]
              rw [hnum, List.take_append]
              simp [List.append_assoc]
            · rw [hk2]
              simp only [hcomm.2]
              omega
        · rw [v1Go_eq_cons_part cancelAt bs r rest batch st hc hfull] at habort ⊢
          obtain ⟨k, hk1, hk2⟩ := ih (batch ++ [r]) ⟨st.clock + 1, st.committed, st.commits⟩
            (by simp only [List.length_append, List.length_cons, List.length_nil] at hfull ⊢
                omega) habort
          refine ⟨k, ?_, ?_⟩
          · have hsplit : batch ++ r :: rest = (batch ++ [r]) ++ rest := by simp
            rw [hsplit]
            exact hk1
          · exact hk2

theorem v2ExecBatch_state (cancelAt : Nat) :
    ∀ (b : List Nat) (st : V2St),
      (v2ExecBatch cancelAt b st).committed = st.committed ∧
      (v2ExecBatch cancelAt b st).commits = st.commits := by
  intro b
  induction b with
  | nil => intro st; exact ⟨rfl, rfl⟩
  | cons r rest ih =>
      intro st
      by_cases hc : cancelAt ≤ st.clock
      · simp [v2ExecBatch, hc]
      · simpa [v2ExecBatch, hc] using
          ih ⟨st.clock + 1, st.executed ++ [r], st.committed, st.commits⟩

theorem v2Go_eq_cancel (cancelAt bs : Nat) (rem batch : List Nat) (st : V2St)
    (h : cancelAt ≤ st.clock) :
    v2Go cancelAt bs rem batch st =
      (⟨st.clock + 1, st.executed, st.committed, st.commits⟩, V1Outcome.cancelled) := by
  rw [v2Go, if_pos h]

theorem v2Go_eq_nil_fail (cancelAt bs : Nat) (batch : List Nat) (st : V2St)
    (h : ¬ cancelAt ≤ st.clock)
    (hcm : cancelAt ≤
      (v2ExecBatch cancelAt batch
        ⟨st.clock + 1, st.executed, st.committed, st.commits⟩).clock) :
    v2Go cancelAt bs [] batch st =
      (v2ExecBatch cancelAt batch ⟨st.clock + 1, st.executed, st.committed, st.commits⟩,
       V1Outcome.commitFailed) := by
  rw [v2Go, if_neg h]
  dsimp only
  rw [if_pos hcm]

theorem v2Go_eq_nil_ok (cancelAt bs : Nat) (batch : List Nat) (st : V2St)
    (h : ¬ cancelAt ≤ st.clock)
    (hcm : ¬ cancelAt ≤
      (v2ExecBatch cancelAt batch
        ⟨st.clock + 1, st.executed, st.committed, st.commits⟩).clock) :
    v2Go cancelAt bs [] batch st =
      (⟨(v2ExecBatch cancelAt batch
           ⟨st.clock + 1, st.executed, st.committed, st.commits⟩).clock,
        [],
        (v2ExecBatch cancelAt batch
           ⟨st.clock + 1, st.executed, st.committed, st.commits⟩).executed,
        (v2ExecBatch cancelAt batch
           ⟨st.clock + 1, st.executed, st.committed, st.commits⟩).commits + 1⟩,
       V1Outcome.completed) := by
  rw [v2Go, if_neg h]
  dsimp only
  rw [if_neg hcm]

theorem v2Go_eq_cons_full (cancelAt bs : Nat) (r : Nat) (rest batch : List Nat)
    (st : V2St) (h : ¬ cancelAt ≤ st.clock)
    (hfull : bs ≤ (batch ++ [r]).length) :
    v2Go cancelAt bs (r :: rest) batch st =
      v2Go cancelAt bs rest []
        (v2ExecBatch cancelAt (batch ++ [r])
          ⟨st.clock + 1, st.executed, st.committed, st.commits⟩) := by
  rw [v2Go, if_neg h]
  dsimp only
  rw [if_pos hfull]

theorem v2Go_eq_cons_part (cancelAt bs : Nat) (r : Nat) (rest batch : List Nat)
    (st : V2St) (h : ¬ cancelAt ≤ st.clock)
    (hfull : ¬ bs ≤ (batch ++ [r]).length) :
    v2Go cancelAt bs (r :: rest) batch st =
      v2Go cancelAt bs rest (batch ++ [r])
        ⟨st.clock + 1, st.executed, st.committed, st.commits⟩ := by
  rw [v2Go, if_neg h]
  dsimp only
  rw [if_neg hfull]

theorem v2Go_abort (cancelAt bs : Nat) :
    ∀ (rem batch : List Nat) (st : V2St),
      (v2Go cancelAt bs rem batch st).2 ≠ V1Outcome.completed →
      (v2Go cancelAt bs rem batch st).1.committed = st.committed ∧
      (v2Go cancelAt bs rem batch st).1.commits = st.commits := by
  intro rem
  induction rem with
  | nil =>
      intro batch st habort
      by_cases hc : cancelAt ≤ st.clock
      · rw [v2Go_eq_cancel cancelAt bs [] batch st hc]
        exact ⟨rfl, rfl⟩
      · by_cases hcm : cancelAt ≤
            (v2ExecBatch cancelAt batch
              ⟨st.clock + 1, st.executed, st.committed, st.commits⟩).clock
        · have hs := v2ExecBatch_state cancelAt batch
            ⟨st.clock + 1, st.executed, st.committed, st.commits⟩
          rw [v2Go_eq_nil_fail cancelAt bs batch st hc hcm]
          exact ⟨hs.1, hs.2⟩
        · rw [v2Go_eq_nil_ok cancelAt bs batch st hc hcm] at habort
          simp at habort
  | cons r rest ih =>
      intro batch st habort
      by_cases hc : cancelAt ≤ st.clock
      · rw [v2Go_eq_cancel cancelAt bs (r :: rest) batch st hc]
        exact ⟨rfl, rfl⟩
      · by_cases hfull : bs ≤ (batch ++ [r]).length
        · rw [v2Go_eq_cons_full cancelAt bs r rest batch st hc hfull] at habort ⊢
          have hs := v2ExecBatch_state cancelAt (batch ++ [r])
            ⟨st.clock + 1, st.executed, st.committed, st.commits⟩
          obtain ⟨h1, h2⟩ := ih [] (v2ExecBatch cancelAt (batch ++ [r])
            ⟨st.clock + 1, st.executed, st.committed, st.commits⟩) habort
          exact ⟨by rw [h1, hs.1], by rw [h2, hs.2]⟩
        · rw [v2Go_eq_cons_part cancelAt bs r rest batch st hc hfull] at habort ⊢
          exact ih (batch ++ [r]) ⟨st.clock + 1, st.executed, st.committed, st.commits⟩ habort

/-- Sanity trace of the corrected commit semantics: with batch size 2 and
rows [1, 2], cancellation firing at checkpoint 3 hits the middle of the
first batch; the commit of that batch then fails (the context is already
canceled at commit time), so nothing is persisted and no commit is counted. -/
theorem v1Run_midbatch_cancel_rollback :
    v1Run 3 2 [1, 2] = (⟨4, [], 0⟩, V1Outcome.commitFailed) := rfl

/-- C2, counterexample: the second revision of ImportData (lines 1491-1596)
runs every batch inside ONE transaction committed once at EOF.  In a
cancellation-free run of four rows with batchSize 2 the buffer reaches
batchSize twice, yet exactly one commit happens — refuting, for this
revision, the claim that the open transaction is committed and reopened
whenever the buffer reaches batchSize rows. -/
theorem C2_v2_single_commit :
    (v2Run 100 2 [1, 2, 3, 4]).2 = V1Outcome.completed ∧
    (v2Run 100 2 [1, 2, 3, 4]).1.commits = 1 ∧
    (v2Run 100 2 [1, 2, 3, 4]).1.commits ≠ ([1, 2, 3, 4] : List Nat).length / 2 := by
  refine ⟨rfl, rfl, by decide⟩

/-- C2, amended: the FIRST revision's ImportData satisfies the claim in
full — without cancellation the loop commits at every full batch and once
more for a non-empty final buffer, exactly ⌈rows / batchSize⌉ commits with
every row persisted in order; and because each transaction is opened with
BeginTx(ctx), a commit attempted after cancellation deterministically fails
and is rolled back, so whenever a run does not complete, the persisted rows
are exactly some number k of whole committed batches (the first k·batchSize
rows, one commit each): no row of the open, uncommitted transaction is ever
persisted while every previously committed batch remains.  The SECOND
revision's ImportData commits only once at EOF, so a run of it that does
not complete persists nothing at all. -/
theorem C2_batch_commit_and_cancellation :
    (∀ (rows : List Nat) (bs : Nat), 1 ≤ bs →
        v1Run (2 * rows.length + 2) bs rows =
          (⟨2 * rows.length + 1, rows, (rows.length + bs - 1) / bs⟩,
           V1Outcome.completed)) ∧
    (∀ (cancelAt bs : Nat) (rows : List Nat), 1 ≤ bs →
        (v1Run cancelAt bs rows).2 ≠ V1Outcome.completed →
        ∃ k, (v1Run cancelAt bs rows).1.committed = rows.take (k * bs) ∧
          (v1Run cancelAt bs rows).1.commits = k) ∧
    (∀ (cancelAt bs : Nat) (rows : List Nat),
        (v2Run cancelAt bs rows).2 ≠ V1Outcome.completed →
        (v2Run cancelAt bs rows).1.committed = [] ∧
        (v2Run cancelAt bs rows).1.commits = 0) := by
  refine ⟨?_, ?_, ?_⟩
  · intro rows bs hbs
    rw [v1Run, v1Go_complete (2 * rows.length + 2) bs hbs rows [] ⟨0, [], 0⟩
      (by simpa using hbs) (by simp)]
    simp
  · intro cancelAt bs rows hbs habort
    rw [v1Run] at habort
    obtain ⟨k, hk1, hk2⟩ := v1Go_abort_batches cancelAt bs hbs rows [] ⟨0, [], 0⟩
      (by simpa using hbs) habort
    refine ⟨k, ?_, ?_⟩
    · rw [v1Run, hk1]
      simp
    · rw [v1Run, hk2]
      simp
  · intro cancelAt bs rows habort
    rw [v2Run] at habort ⊢
    exact v2Go_abort cancelAt bs rows [] ⟨0, [], [], 0⟩ habort

/-- C2 witness: the amended theorem's three branches applied concretely —
a cancellation-free run of three rows with batch size two persists all rows
in two commits; the mid-batch-canceled run of [1, 2] with cancellation at
checkpoint 3 persists exactly k whole batches (here k = 0); the second
revision's run canceled at checkpoint 2 persists nothing. -/
theorem C2_witness :
    (v1Run 8 2 [5, 6, 7] = (⟨7, [5, 6, 7], 2⟩, V1Outcome.completed)) ∧
    (∃ k, (v1Run 3 2 [1, 2]).1.committed = ([1, 2] : List Nat).take (k * 2) ∧
        (v1Run 3 2 [1, 2]).1.commits = k) ∧
    ((v2Run 2 2 [1, 2, 3]).1.committed = [] ∧ (v2Run 2 2 [1, 2, 3]).1.commits = 0) := by
  refine ⟨?_, ?_, ?_⟩
  · have h := C2_batch_commit_and_cancellation.1 [5, 6, 7] 2 (by decide)
    simpa using h
  · exact C2_batch_commit_and_cancellation.2.1 3 2 [1, 2] (by decide) (by decide)
  · exact C2_batch_commit_and_cancellation.2.2 2 2 [1, 2, 3] (by decide)
